import Mathlib

set_option maxRecDepth 8000
set_option synthInstance.maxHeartbeats 1000000

/- Verification development for the candidacy-review application
   (tabular parser, date normalizer, identity resolver, search filter and
   duplicate grouper).  The TypeScript sources are embedded shallowly:
   strings are lists of characters, JS objects are association lists in
   insertion order, machine integers are Int, and the JS Date environment
   is modelled with the proleptic Gregorian calendar at UTC (the embedding
   fixes the host timezone to UTC, matching the spec's reading of the
   serial-number conversion). -/

/- ---------------------------------------------------------------- -/
/- Basic JS string model                                            -/
/- ---------------------------------------------------------------- -/

abbrev Str := List Char

/-- JS String.prototype.toLowerCase restricted to ASCII and Latin-1
letters (the character ranges exercised by this application's data). -/
def jsToLower (c : Char) : Char :=
  let n := c.toNat
  if 65 ≤ n ∧ n ≤ 90 then Char.ofNat (n + 32)
  else if 192 ≤ n ∧ n ≤ 222 ∧ n ≠ 215 then Char.ofNat (n + 32)
  else c

def lowerStr (s : Str) : Str := s.map jsToLower

/-- Boolean prefix test on character lists. -/
def isPrefixB : Str → Str → Bool
  | [], _ => true
  | _ :: _, [] => false
  | a :: as, b :: bs => a = b && isPrefixB as bs

/-- JS String.prototype.includes: does hay contain needle as a substring. -/
def strIncludes : Str → Str → Bool
  | hay, needle =>
    if isPrefixB needle hay then true
    else
      match hay with
      | [] => false
      | _ :: t => strIncludes t needle

/-- Code-unit lexicographic strict order on strings (JS default sort order). -/
def strLtB : Str → Str → Bool
  | [], [] => false
  | [], _ :: _ => true
  | _ :: _, [] => false
  | a :: as, b :: bs =>
    if a.toNat < b.toNat then true
    else if b.toNat < a.toNat then false
    else strLtB as bs

def strLeB (a b : Str) : Bool := !strLtB b a

/-- Insert into a sorted list (stable). -/
def insertSorted {α : Type} (le : α → α → Bool) (a : α) : List α → List α
  | [] => [a]
  | b :: t => if le a b then a :: b :: t else b :: insertSorted le a t

/-- JS Array.prototype.sort with a comparator: the algorithm is
implementation defined, modelled by a stable insertion sort. -/
def sortByB {α : Type} (le : α → α → Bool) : List α → List α
  | [] => []
  | a :: t => insertSorted le a (sortByB le t)

/-- JS String.prototype.split with a single-character separator
(keeps empty fields, always returns at least one field). -/
def splitCh (sep : Char) : Str → List Str
  | [] => [[]]
  | c :: cs =>
    match splitCh sep cs with
    | [] => if c = sep then [[], []] else [[c]]
    | h :: t => if c = sep then [] :: h :: t else (c :: h) :: t

/-- JS Array.prototype.join with a separator string. -/
def joinSep (sep : Str) : List Str → Str
  | [] => []
  | [x] => x
  | x :: y :: t => x ++ sep ++ joinSep sep (y :: t)

def isWsChar (c : Char) : Bool :=
  c = ' ' ∨ c.toNat = 9 ∨ c.toNat = 10 ∨ c.toNat = 11 ∨ c.toNat = 12 ∨ c.toNat = 13

/-- JS String.prototype.trim. -/
def trimStr (s : Str) : Str :=
  ((s.dropWhile isWsChar).reverse.dropWhile isWsChar).reverse

/-- Decimal digit character. -/
def digitChar (r : Nat) : Char := Char.ofNat (48 + r)

/-- Most-significant-first decimal digits, with enough fuel. -/
def natDigitsGo : Nat → Nat → Str
  | 0, _ => []
  | fuel + 1, n => if n = 0 then [] else natDigitsGo fuel (n / 10) ++ [digitChar (n % 10)]

/-- Decimal digits of a natural number (JS String(n) for a non-negative
integer). -/
def natDigits (n : Nat) : Str :=
  if n = 0 then ['0'] else natDigitsGo n n

/-- JS String(n) for an integer value. -/
def intStr (n : Int) : Str :=
  if n < 0 then '-' :: natDigits (-n).toNat else natDigits n.toNat

/-- JS String(n).padStart(2, zero) as used by formatDate. -/
def pad2 (n : Nat) : Str :=
  if n < 10 then '0' :: natDigits n else natDigits n

/- ---------------------------------------------------------------- -/
/- Cell values and rows                                             -/
/- ---------------------------------------------------------------- -/

/-- A scalar cell value of a parsed table: JS string, number (modelled as
an integer; the date columns relevant here hold whole-day serials),
Date object (carried as its day count from the Unix epoch) or null. -/
inductive Val where
  | vStr (s : Str)
  | vNum (n : Int)
  | vDate (epochDay : Int)
  | vNull
deriving DecidableEq

/-- A row is a JS object: association list of header/value in insertion
order with unique keys. -/
abbrev Row := List (Str × Val)

def rowKeys (row : Row) : List Str := row.map (fun e => e.1)

def rowGet (row : Row) (k : Str) : Option Val :=
  (row.find? (fun e => decide (e.1 = k))).map (fun e => e.2)

/-- JS String(v).  Date stringification is environment dependent and is
modelled by the day number; no claim depends on it. -/
def jsValToString : Val → Str
  | .vStr s => s
  | .vNum n => intStr n
  | .vDate d => intStr d
  | .vNull => ("null").data

/-- JS String(row[k] ?? ''): missing keys and null collapse to the empty
string. -/
def jsValOrEmpty : Option Val → Str
  | none => []
  | some .vNull => []
  | some v => jsValToString v

/-- How JS Array.prototype.join stringifies one element (null and
undefined become empty). -/
def jsJoinPart : Val → Str
  | .vNull => []
  | v => jsValToString v

/- ---------------------------------------------------------------- -/
/- Proleptic Gregorian calendar (JS Date internals at UTC)          -/
/- ---------------------------------------------------------------- -/

structure CivilDate where
  year : Int
  month : Nat
  day : Nat
deriving DecidableEq

/-- Correction term of the civil-from-days computation. -/
def leapCorr (n : Nat) : Nat := n - n / 1460 + n / 36524 - n / 146096

/-- First day-of-era of year-of-era yoe. -/
def yoeStart (yoe : Nat) : Nat := 365 * yoe + yoe / 4 - yoe / 100

/-- First day-of-era after year-of-era yoe (the 400-year era has 146097
days, so the last year is capped there). -/
def yoeStartNext (yoe : Nat) : Nat := if yoe = 399 then 146097 else yoeStart (yoe + 1)

/-- Civil date inside one 400-year era from the day-of-era. -/
def civilOfEraDoe (era : Int) (doe : Nat) : CivilDate :=
  let yoe := leapCorr doe / 365
  let doy := doe - yoeStart yoe
  let mp := (5 * doy + 2) / 153
  ⟨era * 400 + yoe + (if (if mp < 10 then mp + 3 else mp - 9) ≤ 2 then 1 else 0),
   if mp < 10 then mp + 3 else mp - 9,
   doy - (153 * mp + 2) / 5 + 1⟩

/-- Civil calendar date of a day count from the Unix epoch (the
decomposition JS Date performs for getFullYear/getMonth/getDate at UTC). -/
def civilFromDays (z : Int) : CivilDate :=
  civilOfEraDoe ((z + 719468) / 146097) ((z + 719468) % 146097).toNat

/-- Shifted month index (March-based) of a calendar month. -/
def monthShift (m : Nat) : Nat := if 2 < m then m - 3 else m + 9

/-- Day-of-era of a (year-of-era, shifted month, day) triple. -/
def daysFromCivilEra (yoe mp d : Nat) : Nat :=
  yoeStart yoe + ((153 * mp + 2) / 5 + d - 1)

/-- Day count from the Unix epoch of a civil date (the inverse
composition, used to state that civilFromDays decodes correctly). -/
def daysFromCivil (y : Int) (m d : Nat) : Int :=
  (y - (if m ≤ 2 then 1 else 0)) / 400 * 146097 +
    (daysFromCivilEra (((y - (if m ≤ 2 then 1 else 0)) % 400).toNat) (monthShift m) d : Int)
    - 719468

def isLeapYear (y : Int) : Bool :=
  decide ((y % 4 = 0 ∧ ¬ y % 100 = 0) ∨ y % 400 = 0)

def daysInMonth (y : Int) (m : Nat) : Nat :=
  if m = 2 then (if isLeapYear y then 29 else 28)
  else if m = 4 ∨ m = 6 ∨ m = 9 ∨ m = 11 then 30 else 31

def isValidDate (y : Int) (m d : Nat) : Prop :=
  1 ≤ m ∧ m ≤ 12 ∧ 1 ≤ d ∧ d ≤ daysInMonth y m

instance (y : Int) (m d : Nat) : Decidable (isValidDate y m d) := by
  unfold isValidDate; infer_instance

lemma leapCorr_mono_step (n : Nat) (h : n + 1 < 146097) : leapCorr n ≤ leapCorr (n + 1) := by
  unfold leapCorr; omega

lemma leapCorr_mono {a b : Nat} (hab : a ≤ b) (hb : b < 146097) :
    leapCorr a ≤ leapCorr b := by
  induction b with
  | zero =>
    have : a = 0 := Nat.le_zero.mp hab
    subst this; exact le_refl _
  | succ k ih =>
    rcases Nat.lt_or_ge a (k + 1) with h | h
    · exact le_trans (ih (by omega) (by omega)) (leapCorr_mono_step k hb)
    · have : a = k + 1 := by omega
      subst this; exact le_refl _

lemma leapCorr_bounds : ∀ yoe : Nat, yoe < 400 →
    365 * yoe ≤ leapCorr (yoeStart yoe) ∧
    leapCorr (yoeStartNext yoe - 1) ≤ 365 * yoe + 364 := by
  decide

lemma yoeStartNext_bounds (yoe : Nat) (h : yoe < 400) :
    yoeStart yoe + 365 ≤ yoeStartNext yoe ∧ yoeStartNext yoe ≤ yoeStart yoe + 366 ∧
    yoeStartNext yoe ≤ 146097 := by
  unfold yoeStartNext yoeStart
  split <;> omega

lemma yoeStart_partition : ∀ doe : Nat, doe < 146097 →
    ∃ yoe : Nat, yoe < 400 ∧ yoeStart yoe ≤ doe ∧ doe < yoeStartNext yoe := by
  intro doe
  induction doe with
  | zero =>
    intro _
    exact ⟨0, by norm_num, by unfold yoeStart; norm_num, by unfold yoeStartNext yoeStart; norm_num⟩
  | succ k ih =>
    intro hk
    obtain ⟨yoe, hy, hs, hn⟩ := ih (by omega)
    rcases Nat.lt_or_ge (k + 1) (yoeStartNext yoe) with h | h
    · exact ⟨yoe, hy, by omega, h⟩
    · have hkeq : k + 1 = yoeStartNext yoe := by omega
      by_cases h399 : yoe = 399
      · subst h399
        have : yoeStartNext 399 = 146097 := by unfold yoeStartNext; simp
        omega
      · have hnext : yoeStartNext yoe = yoeStart (yoe + 1) := by
          unfold yoeStartNext; simp [h399]
        have h4 : yoe + 1 < 400 := by omega
        have hb := yoeStartNext_bounds (yoe + 1) h4
        exact ⟨yoe + 1, h4, by omega, by omega⟩

lemma yoe_recover {doe yoe : Nat} (hy : yoe < 400) (h1 : yoeStart yoe ≤ doe)
    (h2 : doe < yoeStartNext yoe) : leapCorr doe / 365 = yoe := by
  have hb := leapCorr_bounds yoe hy
  have hn := yoeStartNext_bounds yoe hy
  have hlo : 365 * yoe ≤ leapCorr doe :=
    le_trans hb.1 (leapCorr_mono h1 (by omega))
  have hhi : leapCorr doe ≤ 365 * yoe + 364 :=
    le_trans (leapCorr_mono (by omega) (by omega)) hb.2
  omega

lemma civilFromDays_eq (z era : Int) (doe : Nat) (hdoe : doe < 146097)
    (hz : z + 719468 = era * 146097 + (doe : Int)) :
    civilFromDays z = civilOfEraDoe era doe := by
  unfold civilFromDays
  have h1 : (z + 719468) / 146097 = era := by omega
  have h2 : ((z + 719468) % 146097).toNat = doe := by omega
  rw [h1, h2]

lemma civilOfEraDoe_of_valid (era : Int) (yoe mp d : Nat) (hy : yoe < 400) (hmp : mp ≤ 11)
    (hd1 : 1 ≤ d) (hdle : d ≤ (153 * (mp + 1) + 2) / 5 - (153 * mp + 2) / 5)
    (hfeb : mp = 11 → d ≤ 28 ∨ (d = 29 ∧ ((4 ∣ yoe + 1 ∧ ¬ 100 ∣ yoe + 1) ∨ yoe = 399))) :
    daysFromCivilEra yoe mp d < 146097 ∧
    civilOfEraDoe era (daysFromCivilEra yoe mp d) =
      ⟨era * 400 + yoe + (if (if mp < 10 then mp + 3 else mp - 9) ≤ 2 then 1 else 0),
       if mp < 10 then mp + 3 else mp - 9, d⟩ := by
  have hnb := yoeStartNext_bounds yoe hy
  have hstart : yoeStart yoe ≤ daysFromCivilEra yoe mp d := by
    unfold daysFromCivilEra; omega
  have hlt : daysFromCivilEra yoe mp d < yoeStartNext yoe := by
    rcases Nat.lt_or_ge mp 11 with h11 | h11
    · unfold daysFromCivilEra
      have : (153 * mp + 2) / 5 + d - 1 ≤ 364 := by omega
      omega
    · have hmp11 : mp = 11 := by omega
      subst hmp11
      rcases hfeb rfl with hd28 | ⟨hd29, hleap⟩
      · unfold daysFromCivilEra
        have : (153 * 11 + 2) / 5 + d - 1 ≤ 364 := by omega
        omega
      · subst hd29
        rcases hleap with ⟨h4, h100⟩ | h399
        · have hy399 : yoe ≠ 399 := by omega
          unfold daysFromCivilEra yoeStartNext yoeStart
          simp only [hy399, if_false]
          omega
        · subst h399
          unfold daysFromCivilEra yoeStartNext yoeStart
          norm_num
  have hltE : daysFromCivilEra yoe mp d < 146097 := by omega
  have hrec : leapCorr (daysFromCivilEra yoe mp d) / 365 = yoe := yoe_recover hy hstart hlt
  have hdoy : daysFromCivilEra yoe mp d - yoeStart yoe = (153 * mp + 2) / 5 + d - 1 := by
    unfold daysFromCivilEra; omega
  have hmprec : (5 * ((153 * mp + 2) / 5 + d - 1) + 2) / 153 = mp := by omega
  refine ⟨hltE, ?_⟩
  simp only [civilOfEraDoe, hrec, hdoy, hmprec, CivilDate.mk.injEq]
  exact ⟨trivial, trivial, by omega⟩

theorem daysFromCivil_civilFromDays (z : Int) :
    daysFromCivil (civilFromDays z).year (civilFromDays z).month (civilFromDays z).day = z := by
  have hRlt : ((z + 719468) % 146097).toNat < 146097 := by omega
  obtain ⟨yoe, hy, hs, hn⟩ := yoeStart_partition _ hRlt
  have hrec := yoe_recover hy hs hn
  have hnb := yoeStartNext_bounds yoe hy
  simp only [civilFromDays, civilOfEraDoe, hrec]
  set ERA : Int := (z + 719468) / 146097 with hERA
  set DOE : Nat := ((z + 719468) % 146097).toNat with hDOE
  set doy : Nat := DOE - yoeStart yoe with hdoy
  set mpE : Nat := (5 * doy + 2) / 153 with hmpE
  set DD : Nat := doy - (153 * mpE + 2) / 5 + 1 with hDD
  set MM : Nat := if mpE < 10 then mpE + 3 else mpE - 9 with hMM
  have hdoy365 : doy ≤ 365 := by omega
  have hmp11 : mpE ≤ 11 := by omega
  have hkey : (153 * mpE + 2) / 5 ≤ doy := by omega
  simp only [daysFromCivil]
  have hshift : monthShift MM = mpE := by
    unfold monthShift; rw [hMM]; split_ifs <;> omega
  rw [hshift]
  simp only [add_sub_cancel_right]
  have hdiv : (ERA * 400 + (yoe : Int)) / 400 = ERA := by omega
  have hmod : ((ERA * 400 + (yoe : Int)) % 400).toNat = yoe := by omega
  rw [hdiv, hmod]
  have hback : daysFromCivilEra yoe mpE DD = DOE := by
    unfold daysFromCivilEra; omega
  rw [hback]
  omega

lemma daysInMonth_le (y : Int) (m : Nat) (h1 : 1 ≤ m) (h2 : m ≤ 12) :
    daysInMonth y m ≤ (153 * (monthShift m + 1) + 2) / 5 - (153 * monthShift m + 2) / 5 := by
  unfold daysInMonth monthShift
  interval_cases m <;> split_ifs <;> omega

theorem civilFromDays_daysFromCivil (y : Int) (m d : Nat) (h : isValidDate y m d) :
    civilFromDays (daysFromCivil y m d) = ⟨y, m, d⟩ := by
  obtain ⟨hm1, hm12, hd1, hdm⟩ := h
  set A : Int := if m ≤ 2 then 1 else 0 with hA
  set Y2 : Int := y - A with hY2
  set ERA : Int := Y2 / 400 with hERA
  set YOE : Nat := (Y2 % 400).toNat with hYOE
  set MP : Nat := monthShift m with hMP
  have hyoe400 : YOE < 400 := by omega
  have hmp11 : MP ≤ 11 := by rw [hMP]; unfold monthShift; split_ifs <;> omega
  have hdle : d ≤ (153 * (MP + 1) + 2) / 5 - (153 * MP + 2) / 5 := by
    rw [hMP]; exact le_trans hdm (daysInMonth_le y m hm1 hm12)
  have hfeb : MP = 11 → d ≤ 28 ∨ (d = 29 ∧ ((4 ∣ YOE + 1 ∧ ¬ 100 ∣ YOE + 1) ∨ YOE = 399)) := by
    intro hmp
    have hm2 : m = 2 := by
      rw [hMP] at hmp; unfold monthShift at hmp; split_ifs at hmp <;> omega
    subst hm2
    have hAe : A = 1 := by rw [hA]; norm_num
    by_cases hL : isLeapYear y
    · rcases Nat.lt_or_ge d 29 with hdlt | hdge
      · exact Or.inl (by omega)
      · have hd29 : d = 29 := by
          have hval : daysInMonth y 2 = 29 := by unfold daysInMonth; simp [hL]
          omega
        refine Or.inr ⟨hd29, ?_⟩
        unfold isLeapYear at hL
        simp only [decide_eq_true_eq] at hL
        omega
    · have hval : daysInMonth y 2 = 28 := by unfold daysInMonth; simp [hL]
      exact Or.inl (by omega)
  have hv := civilOfEraDoe_of_valid ERA YOE MP d hyoe400 hmp11 hd1 hdle hfeb
  have hDval : daysFromCivil y m d = ERA * 146097 + (daysFromCivilEra YOE MP d : Int) - 719468 := by
    rw [hERA, hYOE, hMP, hY2, hA]
    rfl
  have heq := civilFromDays_eq (daysFromCivil y m d) ERA (daysFromCivilEra YOE MP d) hv.1
    (by rw [hDval]; ring)
  rw [heq, hv.2]
  have hMPm : (if MP < 10 then MP + 3 else MP - 9) = m := by
    rw [hMP]; unfold monthShift; split_ifs <;> omega
  rw [hMPm, ← hA]
  have hyfin : ERA * 400 + (YOE : Int) + A = y := by omega
  rw [hyfin]

/- ---------------------------------------------------------------- -/
/- Date normalizer (fileParser.ts formatDate / processDataForDates) -/
/- ---------------------------------------------------------------- -/

/-- formatDate of fileParser.ts: DD-MM-YYYY with zero-padded day and
month (the invalid-Date branch returning the empty string has no
representation here because CivilDate carries no NaN). -/
def formatDate (c : CivilDate) : Str :=
  pad2 c.day ++ '-' :: pad2 c.month ++ '-' :: intStr c.year

def isDigitCh (c : Char) : Bool := decide (48 ≤ c.toNat ∧ c.toNat ≤ 57)

def isSepCh (c : Char) : Bool := decide (c = '/' ∨ c = '-')

/-- Split on every character satisfying p (keeps empty fields). -/
def splitByP (p : Char → Bool) : Str → List Str
  | [] => [[]]
  | c :: cs =>
    match splitByP p cs with
    | [] => if p c then [[], []] else [[c]]
    | h :: t => if p c then [] :: h :: t else (c :: h) :: t

def digitVal (c : Char) : Nat := c.toNat - 48

def parseDigits (l : Str) : Nat := l.foldl (fun a c => 10 * a + digitVal c) 0

/-- The anchored pattern of processDataForDates: one or two digits, a
separator (slash or hyphen), one or two digits, a separator, then two to
four digits.  Since a digit is never a separator, a string matches
exactly when splitting on the separators yields three all-digit fields
of the right lengths. -/
def matchDMY (s : Str) : Option (Nat × Nat × Nat) :=
  match splitByP isSepCh s with
  | [a, b, c] =>
    if a.all isDigitCh ∧ b.all isDigitCh ∧ c.all isDigitCh ∧
        1 ≤ a.length ∧ a.length ≤ 2 ∧ 1 ≤ b.length ∧ b.length ≤ 2 ∧
        2 ≤ c.length ∧ c.length ≤ 4 then
      some (parseDigits a, parseDigits b, parseDigits c)
    else none
  | _ => none

/-- JS new Date(year, monthIndex, day) reduced to its day count: month
overflow/underflow carries into the year and the day offsets from day 1
of that month (the MakeDay algorithm). -/
def jsMakeDay (y mIdx dayv : Int) : Int :=
  daysFromCivil (y + mIdx / 12) ((mIdx % 12).toNat + 1) 1 + (dayv - 1)

/-- Header looks like a date column: its lower-cased name contains
fecha or antigüedad. -/
def isDateHeader (h : Str) : Bool :=
  strIncludes (lowerStr h) (("fecha").data) || strIncludes (lowerStr h) (("antigüedad").data)

/-- The per-cell action of processDataForDates on a date-indicating
column.  gp is the environment's free-form Date(string) parser used on
strings that do not match the D/M/Y pattern (browser dependent); it
returns the epoch day of the parsed instant or none for an invalid
date. -/
def processCell (gp : Str → Option Int) (v : Val) : Val :=
  match v with
  | .vDate ep =>
    if (civilFromDays ep).year > 1000 then .vStr (formatDate (civilFromDays ep)) else v
  | .vNum n =>
    if n > 25569 then
      (if (civilFromDays (n - 25569)).year > 1000 then
        .vStr (formatDate (civilFromDays (n - 25569))) else v)
    else v
  | .vStr s =>
    match matchDMY s with
    | some (dd, mm, yy) =>
      (let yr : Int := if yy < 100 then (yy : Int) + 2000 else (yy : Int)
       let ep := jsMakeDay yr ((mm : Int) - 1) (dd : Int)
       if (civilFromDays ep).year > 1000 then .vStr (formatDate (civilFromDays ep)) else v)
    | none =>
      match gp s with
      | some ep =>
        if (civilFromDays ep).year > 1000 then .vStr (formatDate (civilFromDays ep)) else v
      | none => v
  | .vNull => v

/-- processDataForDates of fileParser.ts. -/
def processDataForDates (gp : Str → Option Int) (data : List Row) (headers : List Str) :
    List Row :=
  let dateHeaders := headers.filter isDateHeader
  if dateHeaders.isEmpty then data
  else data.map (fun row =>
    row.map (fun e => if e.1 ∈ dateHeaders then (e.1, processCell gp e.2) else e))

/- ---------------------------------------------------------------- -/
/- Tabular parser (fileParser.ts parseFile)                         -/
/- ---------------------------------------------------------------- -/

/-- Array.from(new Set(l)): deduplication keeping the first occurrence
of each element, in first-seen order. -/
def firstSeen : List Str → List Str
  | [] => []
  | a :: t => a :: firstSeen (t.filter (fun b => decide (b ≠ a)))
termination_by l => l.length
decreasing_by
  simp_wf
  exact Nat.lt_succ_of_le (List.length_filter_le _ _)

/-- Index of the first occurrence of x in a list (length if absent);
the position a key is first seen at during the header scan. -/
def idxIn (x : Str) : List Str → Nat
  | [] => 0
  | a :: t => if a = x then 0 else idxIn x t + 1

/-- processAndResolve of parseFile: empty data short-circuits, otherwise
the header union is computed over every row and dates are normalized. -/
def processAndResolve (gp : Str → Option Int) (data : List Row) : List Str × List Row :=
  if data.isEmpty then ([], [])
  else
    (firstSeen ((data.map rowKeys).flatten),
     processDataForDates gp data (firstSeen ((data.map rowKeys).flatten)))

/-- Root of a JSON.parse result: an array of row objects or anything
else (object, string, number, ...). -/
inductive JsonRoot where
  | arr (rows : List Row)
  | nonArray

/-- A file handed to parseFile, carrying the library-level decodings the
branches consume: the PapaParse result for csv, the JSON.parse outcome
(none = syntax error), and the workbook sheets in document order. -/
structure FileInput where
  name : Str
  csvRows : List Row
  csvErrors : List Str
  jsonParse : Option JsonRoot
  sheets : List (List Row)

/-- file.name.split('.').pop()?.toLowerCase(). -/
def extOf (name : Str) : Str := lowerStr ((splitCh '.' name).getLastD [])

/-- parseFile of fileParser.ts with the asynchronous plumbing flattened:
rejection is the error constructor, resolution the ok constructor. -/
def parseFile (gp : Str → Option Int) (f : FileInput) : Except Str (List Str × List Row) :=
  let ext := extOf f.name
  if ext = ("csv").data then
    if f.csvErrors.isEmpty then
      Except.ok (processAndResolve gp (f.csvRows.filter (fun r =>
        !(r.all (fun e => decide (e.2 = Val.vNull) || decide (e.2 = Val.vStr []))))))
    else Except.error (joinSep [Char.ofNat 10] f.csvErrors)
  else if ext = ("json").data then
    match f.jsonParse with
    | none => Except.error (("JSON inválido").data)
    | some JsonRoot.nonArray =>
      Except.error (("El archivo JSON debe contener un array de objetos.").data)
    | some (JsonRoot.arr rows) => Except.ok (processAndResolve gp rows)
  else if ext = ("xlsx").data ∨ ext = ("xls").data then
    match f.sheets with
    | [] => Except.error (("El archivo de Excel no contiene hojas.").data)
    | s :: _ => Except.ok (processAndResolve gp s)
  else Except.error (("Tipo de archivo no soportado: .").data ++ ext)

/- ---------------------------------------------------------------- -/
/- Identity resolver (Report.tsx getCandidateIdentifier)            -/
/- ---------------------------------------------------------------- -/

def isSurnameKey (k : Str) : Bool := strIncludes (lowerStr k) (("apellidos").data)

def isNameKey (k : Str) : Bool :=
  strIncludes (lowerStr k) (("nombre").data) && !isSurnameKey k

def isBroadNameKey (k : Str) : Bool :=
  strIncludes (lowerStr k) (("nombre").data) || strIncludes (lowerStr k) (("apellidos").data)
    || strIncludes (lowerStr k) (("name").data) || strIncludes (lowerStr k) (("candidato").data)

def isDniKey (k : Str) : Bool :=
  strIncludes (lowerStr k) (("dni").data) || strIncludes (lowerStr k) (("nif").data)
    || strIncludes (lowerStr k) (("id").data)

/-- getCandidateIdentifier of Report.tsx.  The in-place .sort() calls use
the default code-unit comparator, modelled by strLeB. -/
def getCandidateIdentifier (row : Row) : Str :=
  let keys := rowKeys row
  let surnameKeys := sortByB strLeB (keys.filter isSurnameKey)
  let nameKeys := sortByB strLeB (keys.filter isNameKey)
  let fullNameParts := surnameKeys.map (fun k => jsValOrEmpty (rowGet row k))
      ++ nameKeys.map (fun k => jsValOrEmpty (rowGet row k))
  if !fullNameParts.isEmpty then trimStr (joinSep [' '] fullNameParts)
  else
    let allNameKeys := sortByB strLeB (keys.filter isBroadNameKey)
    if !allNameKeys.isEmpty then
      trimStr (joinSep [' '] (allNameKeys.map (fun k => jsValOrEmpty (rowGet row k))))
    else
      match keys.find? isDniKey with
      | some k => jsValToString ((rowGet row k).getD Val.vNull)
      | none =>
        match row with
        | [] => ("Candidato Desconocido").data
        | e :: _ =>
          match e.2 with
          | Val.vNull => ("Candidato Desconocido").data
          | v => jsValToString v

/- ---------------------------------------------------------------- -/
/- Duplicate grouper (Report.tsx duplicatedCandidatesByUnion)       -/
/- ---------------------------------------------------------------- -/

/-- Selection state: row index to union name to checked flag
(absence of an entry is false). -/
abbrev CheckedState := Nat → Str → Bool

def checkedUnionsForRow (allUnions : List Str) (cs : CheckedState) (i : Nat) : List Str :=
  allUnions.filter (fun u => cs i u)

/-- Key lookup in a JS object represented as an association list. -/
def objGet {α : Type} : List (Str × α) → Str → Option α
  | [], _ => none
  | e :: m, k => if e.1 = k then some e.2 else objGet m k

/-- JS Set.prototype.add: insertion order, no duplicates. -/
def insertUnion (s : List Str) (u : Str) : List Str := if u ∈ s then s else s ++ [u]

def insertUnions (s : List Str) (us : List Str) : List Str := us.foldl insertUnion s

/-- Adding a batch of unions to the entry of one identifier. -/
def updEntry (id : Str) (cu : List Str) (e : Str × (List Str × Row)) :
    Str × (List Str × Row) :=
  if e.1 = id then (e.1, (insertUnions e.2.1 cu, e.2.2)) else e

/-- One iteration of the candidate-map construction: create the entry on
first sight of the identifier (keeping that row), then add the checked
unions to its set. -/
def addCandidate (m : List (Str × (List Str × Row))) (id : Str) (row : Row)
    (cu : List Str) : List (Str × (List Str × Row)) :=
  (if (objGet m id).isSome then m else m ++ [(id, ([], row))]).map (updEntry id cu)

/-- The body of the forEach of step 1: rows with no checked union are
skipped, the others are folded into the candidate map. -/
def candidatesStep (cs : CheckedState) (allUnions : List Str)
    (m : List (Str × (List Str × Row))) (p : Nat × Row) : List (Str × (List Str × Row)) :=
  if (checkedUnionsForRow allUnions cs p.1).isEmpty then m
  else addCandidate m (getCandidateIdentifier p.2) p.2 (checkedUnionsForRow allUnions cs p.1)

/-- Step 1 of duplicatedCandidatesByUnion: map every identifier to the
set of unions it is checked for and the first row carrying it. -/
def candidatesMap (data : List Row) (cs : CheckedState) (allUnions : List Str) :
    List (Str × (List Str × Row)) :=
  data.enum.foldl (candidatesStep cs allUnions) []

/-- Step 2: keep the identities in more than one union, sorting each
union set. -/
def actualDuplicates (data : List Row) (cs : CheckedState) (allUnions : List Str) :
    List (Str × (List Str × Row)) :=
  ((candidatesMap data cs allUnions).filter (fun e => decide (1 < e.2.1.length))).map
    (fun e => (getCandidateIdentifier e.2.2, (sortByB strLeB e.2.1, e.2.2)))

/-- Step 3 for one union: its duplicates with the other unions of each,
sorted by identifier (localeCompare is environment dependent and is
modelled by the code-unit order; no claim depends on the order). -/
def groupForUnion (dups : List (Str × (List Str × Row))) (u : Str) :
    List (Str × (List Str × Row)) :=
  sortByB (fun a b => strLeB a.1 b.1)
    ((dups.filter (fun d => decide (u ∈ d.2.1))).map
      (fun d => (d.1, (d.2.1.filter (fun x => decide (x ≠ u)), d.2.2))))

/-- JS object property assignment (overwrite in place or append). -/
def objSet {α : Type} (m : List (Str × α)) (k : Str) (v : α) : List (Str × α) :=
  if (objGet m k).isSome then m.map (fun e => if e.1 = k then (k, v) else e)
  else m ++ [(k, v)]

/-- The body of the forEach of step 3: unions with no duplicate are
skipped, the others get their candidate list assigned. -/
def groupStep (dups : List (Str × (List Str × Row)))
    (acc : List (Str × List (Str × (List Str × Row)))) (u : Str) :
    List (Str × List (Str × (List Str × Row))) :=
  if (groupForUnion dups u).isEmpty then acc else objSet acc u (groupForUnion dups u)

/-- duplicatedCandidatesByUnion of Report.tsx. -/
def duplicatedCandidatesByUnion (data : List Row) (cs : CheckedState)
    (allUnions : List Str) : List (Str × List (Str × (List Str × Row))) :=
  allUnions.foldl (groupStep (actualDuplicates data cs allUnions)) []

/-- The union over all rows sharing identity X of the unions checked for
the row (the accumulated union-set of the spec), as a duplicate-free
list. -/
def accumulatedUnions (data : List Row) (cs : CheckedState) (allUnions : List Str)
    (X : Str) : List Str :=
  (allUnions.filter (fun u =>
    data.enum.any (fun p => decide (getCandidateIdentifier p.2 = X) && cs p.1 u))).dedup

/- ---------------------------------------------------------------- -/
/- Search (App normalizeText and the filter effect)                 -/
/- ---------------------------------------------------------------- -/

/-- Unicode canonical decomposition restricted to the Latin-1 letters
this application's data uses (each accented letter decomposes to its
base letter followed by a combining mark in the U+0300 block). -/
def acuteMark : Char := Char.ofNat 769

def graveMark : Char := Char.ofNat 768

def diaMark : Char := Char.ofNat 776

def tildeMark : Char := Char.ofNat 771

def charNFD (c : Char) : Str :=
  if c = 'á' then ['a', acuteMark] else if c = 'Á' then ['A', acuteMark]
  else if c = 'é' then ['e', acuteMark] else if c = 'É' then ['E', acuteMark]
  else if c = 'í' then ['i', acuteMark] else if c = 'Í' then ['I', acuteMark]
  else if c = 'ó' then ['o', acuteMark] else if c = 'Ó' then ['O', acuteMark]
  else if c = 'ú' then ['u', acuteMark] else if c = 'Ú' then ['U', acuteMark]
  else if c = 'à' then ['a', graveMark] else if c = 'À' then ['A', graveMark]
  else if c = 'è' then ['e', graveMark] else if c = 'È' then ['E', graveMark]
  else if c = 'ì' then ['i', graveMark] else if c = 'Ì' then ['I', graveMark]
  else if c = 'ò' then ['o', graveMark] else if c = 'Ò' then ['O', graveMark]
  else if c = 'ù' then ['u', graveMark] else if c = 'Ù' then ['U', graveMark]
  else if c = 'ü' then ['u', diaMark] else if c = 'Ü' then ['U', diaMark]
  else if c = 'ñ' then ['n', tildeMark] else if c = 'Ñ' then ['N', tildeMark]
  else [c]

def isCombiningMark (c : Char) : Bool := decide (768 ≤ c.toNat ∧ c.toNat ≤ 879)

/-- The punctuation character class stripped by normalizeText. -/
def punctCodes : List Nat :=
  [46, 44, 47, 35, 33, 36, 37, 94, 38, 42, 59, 58, 123, 125, 61, 45, 95, 96, 126, 40, 41]

/-- normalizeText of App: NFD-decompose, strip combining marks,
lowercase, strip the punctuation class. -/
def normalizeText (s : Str) : Str :=
  if s.isEmpty then []
  else ((((s.map charNFD).flatten).filter (fun c => !isCombiningMark c)).map jsToLower).filter
    (fun c => decide (c.toNat ∉ punctCodes))

/-- The searchable string of one row: all field values joined by one
space, then normalized. -/
def searchableOf (row : Row) : Str :=
  normalizeText (joinSep [' '] (row.map (fun e => jsJoinPart e.2)))

/-- Rows of a dataset paired with their stable original index. -/
def indexData (data : List Row) : List (Row × Nat) :=
  data.enum.map (fun p => (p.2, p.1))

/-- The search filter effect of App: split the normalized query into
terms, keep the rows whose searchable string contains every term. -/
def appFilter (orig : List (Row × Nat)) (q : Str) : List (Row × Nat) :=
  let searchTerms := (splitCh ' ' (normalizeText q)).filter (fun t => !(trimStr t).isEmpty)
  if searchTerms.isEmpty then orig
  else
    let searchableData := orig.map (fun p => (searchableOf p.1, p.2))
    let idxs := (searchableData.filter
      (fun e => searchTerms.all (fun t => strIncludes e.1 t))).map (fun e => e.2)
    orig.filter (fun p => decide (p.2 ∈ idxs))

/- ---------------------------------------------------------------- -/
/- Lemmas about the duplicate grouper                               -/
/- ---------------------------------------------------------------- -/

lemma objGet_cons {α : Type} (e : Str × α) (m : List (Str × α)) (k : Str) :
    objGet (e :: m) k = if e.1 = k then some e.2 else objGet m k := rfl

lemma objGet_mem {α : Type} {m : List (Str × α)} {k : Str} {v : α}
    (h : objGet m k = some v) : (k, v) ∈ m := by
  induction m with
  | nil => simp [objGet] at h
  | cons e t ih =>
    obtain ⟨a, b⟩ := e
    rw [objGet_cons] at h
    split_ifs at h with he
    · have hak : a = k := he
      have hbv : b = v := by injection h
      subst hak; subst hbv
      exact List.mem_cons_self _ _
    · exact List.mem_cons_of_mem _ (ih h)

lemma objGet_append {α : Type} (m₁ m₂ : List (Str × α)) (k : Str) :
    objGet (m₁ ++ m₂) k =
      match objGet m₁ k with
      | some v => some v
      | none => objGet m₂ k := by
  induction m₁ with
  | nil => simp [objGet]
  | cons e t ih =>
    rw [List.cons_append, objGet_cons, objGet_cons]
    split_ifs with he
    · rfl
    · exact ih

lemma mem_insertUnion (s : List Str) (x u : Str) :
    u ∈ insertUnion s x ↔ u ∈ s ∨ u = x := by
  unfold insertUnion
  split_ifs with h
  · constructor
    · exact Or.inl
    · rintro (h1 | rfl)
      · exact h1
      · exact h
  · simp [List.mem_append]

lemma nodup_insertUnion (s : List Str) (x : Str) (h : s.Nodup) :
    (insertUnion s x).Nodup := by
  unfold insertUnion
  split_ifs with hx
  · exact h
  · rw [List.nodup_append]
    exact ⟨h, List.nodup_singleton x, by
      intro a ha hax
      rw [List.mem_singleton] at hax
      subst hax
      exact hx ha⟩

lemma mem_insertUnions (s us : List Str) (u : Str) :
    u ∈ insertUnions s us ↔ u ∈ s ∨ u ∈ us := by
  induction us generalizing s with
  | nil => simp [insertUnions]
  | cons x t ih =>
    unfold insertUnions at ih ⊢
    rw [List.foldl_cons, ih, mem_insertUnion]
    simp [List.mem_cons]
    tauto

lemma nodup_insertUnions (s us : List Str) (h : s.Nodup) :
    (insertUnions s us).Nodup := by
  induction us generalizing s with
  | nil => exact h
  | cons x t ih =>
    unfold insertUnions at ih ⊢
    rw [List.foldl_cons]
    exact ih _ (nodup_insertUnion s x h)

lemma objGet_map_updEntry (m : List (Str × (List Str × Row))) (id : Str) (cu : List Str)
    (k : Str) :
    objGet (m.map (updEntry id cu)) k =
      if k = id then (objGet m k).map (fun v => (insertUnions v.1 cu, v.2))
      else objGet m k := by
  induction m with
  | nil => simp [objGet]
  | cons e t ih =>
    rw [List.map_cons, objGet_cons]
    by_cases h1 : e.1 = id
    · have hue : updEntry id cu e = (e.1, (insertUnions e.2.1 cu, e.2.2)) := by
        unfold updEntry; rw [if_pos h1]
      rw [hue]
      by_cases h2 : e.1 = k
      · have hk : k = id := by rw [← h2]; exact h1
        have ht : objGet (e :: t) k = some e.2 := by rw [objGet_cons, if_pos h2]
        rw [show ((e.1, (insertUnions e.2.1 cu, e.2.2)) : Str × (List Str × Row)).1 = e.1
          from rfl, if_pos h2, ht, if_pos hk]
        rfl
      · have ht : objGet (e :: t) k = objGet t k := by rw [objGet_cons, if_neg h2]
        rw [show ((e.1, (insertUnions e.2.1 cu, e.2.2)) : Str × (List Str × Row)).1 = e.1
          from rfl, if_neg h2, ht]
        exact ih
    · have hue : updEntry id cu e = e := by unfold updEntry; rw [if_neg h1]
      rw [hue]
      by_cases h2 : e.1 = k
      · have hk : ¬ k = id := fun hkid => h1 (h2.trans hkid)
        have ht : objGet (e :: t) k = some e.2 := by rw [objGet_cons, if_pos h2]
        rw [if_pos h2, ht, if_neg hk]
      · have ht : objGet (e :: t) k = objGet t k := by rw [objGet_cons, if_neg h2]
        rw [if_neg h2, ht]
        exact ih

lemma objGet_addCandidate_self (m : List (Str × (List Str × Row))) (id : Str) (row : Row)
    (cu : List Str) :
    objGet (addCandidate m id row cu) id =
      some (match objGet m id with
            | some sv => (insertUnions sv.1 cu, sv.2)
            | none => (insertUnions [] cu, row)) := by
  unfold addCandidate
  cases hm : objGet m id with
  | some sv =>
    rw [if_pos (by rfl), objGet_map_updEntry, if_pos rfl, hm]
    rfl
  | none =>
    rw [if_neg (by simp), objGet_map_updEntry, if_pos rfl, objGet_append, hm]
    simp [objGet]

lemma objGet_addCandidate_ne (m : List (Str × (List Str × Row))) (id : Str) (row : Row)
    (cu : List Str) (k : Str) (h : k ≠ id) :
    objGet (addCandidate m id row cu) k = objGet m k := by
  unfold addCandidate
  rw [objGet_map_updEntry, if_neg h]
  split_ifs with h2
  · rfl
  · rw [objGet_append]
    cases hm : objGet m k with
    | some v => rfl
    | none =>
      rw [objGet_cons, if_neg (fun hik => h (hik.symm))]
      rfl

/-- Invariant of the candidate map: union sets are duplicate-free subsets
of the caller's union list, and the stored row resolves to the key. -/
def cmInv (us : List Str) (m : List (Str × (List Str × Row))) : Prop :=
  ∀ e ∈ m, e.2.1.Nodup ∧ (∀ u ∈ e.2.1, u ∈ us) ∧ getCandidateIdentifier e.2.2 = e.1

lemma cmInv_addCandidate {us : List Str} {m : List (Str × (List Str × Row))} {id : Str}
    {row : Row} {cu : List Str} (h : cmInv us m) (hcu : ∀ u ∈ cu, u ∈ us)
    (hid : getCandidateIdentifier row = id) : cmInv us (addCandidate m id row cu) := by
  unfold addCandidate
  intro e he
  obtain ⟨e0, he0, heq⟩ := List.mem_map.mp he
  have he0p : e0.2.1.Nodup ∧ (∀ u ∈ e0.2.1, u ∈ us) ∧ getCandidateIdentifier e0.2.2 = e0.1 := by
    split_ifs at he0 with hs
    · exact h e0 he0
    · rcases List.mem_append.mp he0 with h1 | h1
      · exact h e0 h1
      · rw [List.mem_singleton] at h1
        subst h1
        exact ⟨List.nodup_nil, by simp, hid⟩
  subst heq
  unfold updEntry
  split_ifs with h1
  · refine ⟨nodup_insertUnions _ _ he0p.1, ?_, he0p.2.2⟩
    intro u hu
    rcases (mem_insertUnions _ _ _).mp hu with h2 | h2
    · exact he0p.2.1 u h2
    · exact hcu u h2
  · exact he0p

lemma cmInv_foldl (us : List Str) (cs : CheckedState) (l : List (Nat × Row))
    (m : List (Str × (List Str × Row))) (h : cmInv us m) :
    cmInv us (l.foldl (candidatesStep cs us) m) := by
  induction l generalizing m with
  | nil => exact h
  | cons p t ih =>
    rw [List.foldl_cons]
    apply ih
    unfold candidatesStep
    split_ifs with hcu
    · exact h
    · exact cmInv_addCandidate h
        (fun u hu => (List.mem_filter.mp hu).1) rfl

lemma cmInv_candidatesMap (data : List Row) (cs : CheckedState) (us : List Str) :
    cmInv us (candidatesMap data cs us) := by
  unfold candidatesMap
  exact cmInv_foldl us cs _ [] (by intro e he; simp at he)

lemma mem_checkedUnionsForRow (us : List Str) (cs : CheckedState) (i : Nat) (u : Str) :
    u ∈ checkedUnionsForRow us cs i ↔ u ∈ us ∧ cs i u = true := by
  unfold checkedUnionsForRow
  rw [List.mem_filter]

lemma objGet_candidatesStep_mem (cs : CheckedState) (us : List Str)
    (m : List (Str × (List Str × Row))) (p : Nat × Row) (X u : Str) :
    (∃ sv, objGet (candidatesStep cs us m p) X = some sv ∧ u ∈ sv.1)
      ↔ (∃ sv, objGet m X = some sv ∧ u ∈ sv.1)
        ∨ (u ∈ us ∧ getCandidateIdentifier p.2 = X ∧ cs p.1 u = true) := by
  unfold candidatesStep
  split_ifs with hcu
  · rw [List.isEmpty_iff] at hcu
    constructor
    · exact Or.inl
    · rintro (h | ⟨h1, h2, h3⟩)
      · exact h
      · exfalso
        have : u ∈ checkedUnionsForRow us cs p.1 :=
          (mem_checkedUnionsForRow us cs p.1 u).mpr ⟨h1, h3⟩
        rw [hcu] at this
        simp at this
  · by_cases hX : X = getCandidateIdentifier p.2
    · subst hX
      rw [objGet_addCandidate_self]
      cases hm : objGet m (getCandidateIdentifier p.2) with
      | some sv =>
        simp only [Option.some.injEq]
        constructor
        · rintro ⟨sv2, hsv2, hu⟩
          subst hsv2
          rcases (mem_insertUnions _ _ _).mp hu with h2 | h2
          · exact Or.inl ⟨sv, by trivial, h2⟩
          · rcases (mem_checkedUnionsForRow us cs p.1 u).mp h2 with ⟨ha, hb⟩
            exact Or.inr ⟨ha, by trivial, hb⟩
        · rintro (⟨sv2, hsv2, hu⟩ | ⟨h1, _, h3⟩)
          · obtain rfl : sv = sv2 := hsv2
            exact ⟨_, rfl, (mem_insertUnions _ _ _).mpr (Or.inl hu)⟩
          · exact ⟨_, rfl, (mem_insertUnions _ _ _).mpr
              (Or.inr ((mem_checkedUnionsForRow us cs p.1 u).mpr ⟨h1, h3⟩))⟩
      | none =>
        simp only [Option.some.injEq]
        constructor
        · rintro ⟨sv2, hsv2, hu⟩
          subst hsv2
          rcases (mem_insertUnions _ _ _).mp hu with h2 | h2
          · simp at h2
          · rcases (mem_checkedUnionsForRow us cs p.1 u).mp h2 with ⟨ha, hb⟩
            exact Or.inr ⟨ha, by trivial, hb⟩
        · rintro (⟨sv2, hsv2, hu⟩ | ⟨h1, _, h3⟩)
          · exact absurd hsv2 (by simp)
          · exact ⟨_, rfl, (mem_insertUnions _ _ _).mpr
              (Or.inr ((mem_checkedUnionsForRow us cs p.1 u).mpr ⟨h1, h3⟩))⟩
    · rw [objGet_addCandidate_ne _ _ _ _ _ hX]
      constructor
      · exact Or.inl
      · rintro (h | ⟨_, h2, _⟩)
        · exact h
        · exact absurd h2.symm hX

lemma objGet_candidatesStep_some (cs : CheckedState) (us : List Str)
    (m : List (Str × (List Str × Row))) (p : Nat × Row) (X : Str) :
    (objGet (candidatesStep cs us m p) X).isSome = true
      ↔ (objGet m X).isSome = true
        ∨ (getCandidateIdentifier p.2 = X ∧ checkedUnionsForRow us cs p.1 ≠ []) := by
  unfold candidatesStep
  split_ifs with hcu
  · rw [List.isEmpty_iff] at hcu
    constructor
    · exact Or.inl
    · rintro (h | ⟨_, h2⟩)
      · exact h
      · exact absurd hcu h2
  · rw [List.isEmpty_iff] at hcu
    by_cases hX : X = getCandidateIdentifier p.2
    · subst hX
      rw [objGet_addCandidate_self]
      simp only [Option.isSome_some, true_iff]
      exact Or.inr ⟨by trivial, hcu⟩
    · rw [objGet_addCandidate_ne _ _ _ _ _ hX]
      constructor
      · exact Or.inl
      · rintro (h | ⟨h2, _⟩)
        · exact h
        · exact absurd h2.symm hX

lemma objGet_candidatesFold_mem (cs : CheckedState) (us : List Str)
    (l : List (Nat × Row)) (m : List (Str × (List Str × Row))) (X u : Str) :
    (∃ sv, objGet (l.foldl (candidatesStep cs us) m) X = some sv ∧ u ∈ sv.1)
      ↔ (∃ sv, objGet m X = some sv ∧ u ∈ sv.1)
        ∨ (u ∈ us ∧ ∃ p ∈ l, getCandidateIdentifier p.2 = X ∧ cs p.1 u = true) := by
  induction l generalizing m with
  | nil =>
    rw [List.foldl_nil]
    constructor
    · exact Or.inl
    · rintro (h | ⟨h1, p, hp, _⟩)
      · exact h
      · exact absurd hp (List.not_mem_nil p)
  | cons p t ih =>
    rw [List.foldl_cons, ih, objGet_candidatesStep_mem]
    constructor
    · rintro ((h | ⟨h1, h2, h3⟩) | ⟨h1, q, hq, h2, h3⟩)
      · exact Or.inl h
      · exact Or.inr ⟨h1, p, List.mem_cons_self p t, h2, h3⟩
      · exact Or.inr ⟨h1, q, List.mem_cons_of_mem p hq, h2, h3⟩
    · rintro (h | ⟨h1, q, hq, h2, h3⟩)
      · exact Or.inl (Or.inl h)
      · rcases List.mem_cons.mp hq with rfl | hq2
        · exact Or.inl (Or.inr ⟨h1, h2, h3⟩)
        · exact Or.inr ⟨h1, q, hq2, h2, h3⟩

lemma objGet_candidatesFold_some (cs : CheckedState) (us : List Str)
    (l : List (Nat × Row)) (m : List (Str × (List Str × Row))) (X : Str) :
    (objGet (l.foldl (candidatesStep cs us) m) X).isSome = true
      ↔ (objGet m X).isSome = true
        ∨ (∃ p ∈ l, getCandidateIdentifier p.2 = X ∧ checkedUnionsForRow us cs p.1 ≠ []) := by
  induction l generalizing m with
  | nil =>
    rw [List.foldl_nil]
    constructor
    · exact Or.inl
    · rintro (h | ⟨p, hp, _⟩)
      · exact h
      · exact absurd hp (List.not_mem_nil p)
  | cons p t ih =>
    rw [List.foldl_cons, ih, objGet_candidatesStep_some]
    constructor
    · rintro ((h | ⟨h1, h2⟩) | ⟨q, hq, h1, h2⟩)
      · exact Or.inl h
      · exact Or.inr ⟨p, List.mem_cons_self p t, h1, h2⟩
      · exact Or.inr ⟨q, List.mem_cons_of_mem p hq, h1, h2⟩
    · rintro (h | ⟨q, hq, h1, h2⟩)
      · exact Or.inl (Or.inl h)
      · rcases List.mem_cons.mp hq with rfl | hq2
        · exact Or.inl (Or.inr ⟨h1, h2⟩)
        · exact Or.inr ⟨q, hq2, h1, h2⟩

lemma mem_insertSorted {α : Type} (le : α → α → Bool) (a x : α) (l : List α) :
    x ∈ insertSorted le a l ↔ x = a ∨ x ∈ l := by
  induction l with
  | nil => simp [insertSorted]
  | cons b t ih =>
    unfold insertSorted
    split_ifs with h
    · simp [List.mem_cons]
    · rw [List.mem_cons, ih, List.mem_cons]
      tauto

lemma mem_sortByB {α : Type} (le : α → α → Bool) (x : α) (l : List α) :
    x ∈ sortByB le l ↔ x ∈ l := by
  induction l with
  | nil => simp [sortByB]
  | cons a t ih =>
    unfold sortByB
    rw [mem_insertSorted, ih, List.mem_cons]

lemma mem_actualDuplicates (data : List Row) (cs : CheckedState) (us : List Str)
    (d : Str × (List Str × Row)) :
    d ∈ actualDuplicates data cs us ↔
      ∃ c ∈ candidatesMap data cs us, 1 < c.2.1.length ∧
        d = (getCandidateIdentifier c.2.2, (sortByB strLeB c.2.1, c.2.2)) := by
  unfold actualDuplicates
  rw [List.mem_map]
  constructor
  · rintro ⟨c, hc, rfl⟩
    rcases List.mem_filter.mp hc with ⟨hc1, hc2⟩
    exact ⟨c, hc1, by simpa using hc2, rfl⟩
  · rintro ⟨c, hc, hlen, rfl⟩
    exact ⟨c, List.mem_filter.mpr ⟨hc, by simpa using hlen⟩, rfl⟩

lemma mem_groupForUnion (dups : List (Str × (List Str × Row))) (u : Str)
    (e : Str × (List Str × Row)) :
    e ∈ groupForUnion dups u ↔
      ∃ d ∈ dups, u ∈ d.2.1 ∧
        e = (d.1, (d.2.1.filter (fun x => decide (x ≠ u)), d.2.2)) := by
  unfold groupForUnion
  rw [mem_sortByB, List.mem_map]
  constructor
  · rintro ⟨d, hd, rfl⟩
    rcases List.mem_filter.mp hd with ⟨hd1, hd2⟩
    exact ⟨d, hd1, by simpa using hd2, rfl⟩
  · rintro ⟨d, hd, hu, rfl⟩
    exact ⟨d, List.mem_filter.mpr ⟨hd, by simpa using hu⟩, rfl⟩

lemma objGet_map_set {α : Type} (m : List (Str × α)) (k : Str) (v : α) (q : Str) :
    objGet (m.map (fun e => if e.1 = k then (k, v) else e)) q
      = if q = k then (objGet m q).map (fun _ => v) else objGet m q := by
  induction m with
  | nil => simp [objGet]
  | cons e t ih =>
    rw [List.map_cons]
    by_cases h1 : e.1 = k
    · rw [if_pos h1, objGet_cons, objGet_cons]
      by_cases h2 : q = k
      · have he : ((k, v) : Str × α).1 = q := by simp [h2]
        rw [if_pos he, if_pos (h1.trans h2.symm), if_pos h2]
        rfl
      · have he : ¬ ((k, v) : Str × α).1 = q := by simp; exact fun hh => h2 hh.symm
        have he2 : ¬ e.1 = q := fun hh => h2 (hh.symm.trans h1)
        rw [if_neg he, if_neg he2, ih, if_neg h2]
    · rw [if_neg h1, objGet_cons, objGet_cons]
      by_cases h2 : e.1 = q
      · have hq : ¬ q = k := fun hh => h1 (h2.trans hh)
        rw [if_pos h2, if_pos h2, if_neg hq]
      · rw [if_neg h2, if_neg h2, ih]

lemma objGet_objSet_self {α : Type} (m : List (Str × α)) (k : Str) (v : α) :
    objGet (objSet m k v) k = some v := by
  unfold objSet
  split_ifs with hs
  · rw [objGet_map_set, if_pos rfl]
    obtain ⟨w, hw⟩ := Option.isSome_iff_exists.mp hs
    rw [hw]
    rfl
  · rw [objGet_append]
    rw [Option.not_isSome_iff_eq_none] at hs
    rw [hs]
    simp [objGet]

lemma objGet_objSet_ne {α : Type} (m : List (Str × α)) (k : Str) (v : α) (q : Str)
    (h : q ≠ k) : objGet (objSet m k v) q = objGet m q := by
  unfold objSet
  split_ifs with hs
  · rw [objGet_map_set, if_neg h]
  · rw [objGet_append]
    cases hm : objGet m q with
    | some w => rfl
    | none =>
      rw [objGet_cons, if_neg (fun hh => h hh.symm)]
      rfl

lemma objGet_groupFold (dups : List (Str × (List Str × Row))) (us : List Str)
    (acc : List (Str × List (Str × (List Str × Row)))) (U : Str) :
    objGet (us.foldl (groupStep dups) acc) U =
      if U ∈ us ∧ groupForUnion dups U ≠ [] then some (groupForUnion dups U)
      else objGet acc U := by
  induction us generalizing acc with
  | nil =>
    rw [List.foldl_nil, if_neg]
    rintro ⟨h1, _⟩
    exact List.not_mem_nil U h1
  | cons u t ih =>
    rw [List.foldl_cons, ih]
    by_cases h1 : U ∈ t ∧ groupForUnion dups U ≠ []
    · rw [if_pos h1, if_pos ⟨List.mem_cons_of_mem u h1.1, h1.2⟩]
    · rw [if_neg h1]
      by_cases h2 : U = u
      · subst h2
        by_cases h3 : groupForUnion dups U = []
        · have hstep : groupStep dups acc U = acc := by
            unfold groupStep
            rw [if_pos (by rw [List.isEmpty_iff]; exact h3)]
          rw [hstep, if_neg]
          rintro ⟨_, hne⟩
          exact hne h3
        · have hstep : groupStep dups acc U = objSet acc U (groupForUnion dups U) := by
            unfold groupStep
            rw [if_neg (by rw [List.isEmpty_iff]; exact h3)]
          rw [hstep, objGet_objSet_self, if_pos ⟨List.mem_cons_self U t, h3⟩]
      · have hstep : objGet (groupStep dups acc u) U = objGet acc U := by
          unfold groupStep
          split_ifs with h3
          · rfl
          · exact objGet_objSet_ne acc u _ U h2
        rw [hstep, if_neg]
        rintro ⟨hmem, hne⟩
        rcases List.mem_cons.mp hmem with h4 | h4
        · exact h2 h4
        · exact h1 ⟨h4, hne⟩

lemma objGet_eq_none_iff {α : Type} (m : List (Str × α)) (k : Str) :
    objGet m k = none ↔ k ∉ m.map Prod.fst := by
  induction m with
  | nil =>
    constructor
    · intro _ h
      rw [List.map_nil] at h
      exact List.not_mem_nil k h
    · intro _
      rfl
  | cons e t ih =>
    rw [objGet_cons, List.map_cons, List.mem_cons]
    split_ifs with he
    · constructor
      · intro h
        exact h.elim
      · intro h
        exact absurd (Or.inl he.symm) h
    · rw [ih]
      constructor
      · rintro h (h1 | h1)
        · exact he h1.symm
        · exact h h1
      · intro h
        exact fun h1 => h (Or.inr h1)

lemma objGet_of_mem_nodup {α : Type} {m : List (Str × α)} (hn : (m.map Prod.fst).Nodup)
    {k : Str} {v : α} (hm : (k, v) ∈ m) : objGet m k = some v := by
  induction m with
  | nil => simp at hm
  | cons e t ih =>
    rw [List.map_cons, List.nodup_cons] at hn
    rcases List.mem_cons.mp hm with rfl | hm2
    · rw [objGet_cons, if_pos rfl]
    · rw [objGet_cons]
      split_ifs with he
      · exfalso
        apply hn.1
        rw [he]
        exact List.mem_map.mpr ⟨(k, v), hm2, rfl⟩
      · exact ih hn.2 hm2

lemma keys_map_updEntry (m : List (Str × (List Str × Row))) (id : Str) (cu : List Str) :
    (m.map (updEntry id cu)).map Prod.fst = m.map Prod.fst := by
  rw [List.map_map]
  apply List.map_congr_left
  intro e _
  simp only [Function.comp_apply, updEntry]
  split_ifs <;> rfl

lemma keysNodup_addCandidate {m : List (Str × (List Str × Row))} (id : Str) (row : Row)
    (cu : List Str) (hn : (m.map Prod.fst).Nodup) :
    ((addCandidate m id row cu).map Prod.fst).Nodup := by
  unfold addCandidate
  rw [keys_map_updEntry]
  split_ifs with hs
  · exact hn
  · rw [Option.not_isSome_iff_eq_none, objGet_eq_none_iff] at hs
    rw [List.map_append]
    rw [List.nodup_append]
    exact ⟨hn, List.nodup_singleton id, by
      intro a ha hax
      simp only [List.map_cons, List.map_nil, List.mem_singleton] at hax
      subst hax
      exact hs ha⟩

lemma keysNodup_candidatesFold (cs : CheckedState) (us : List Str) (l : List (Nat × Row))
    (m : List (Str × (List Str × Row))) (hn : (m.map Prod.fst).Nodup) :
    ((l.foldl (candidatesStep cs us) m).map Prod.fst).Nodup := by
  induction l generalizing m with
  | nil => exact hn
  | cons p t ih =>
    rw [List.foldl_cons]
    apply ih
    unfold candidatesStep
    split_ifs with h
    · exact hn
    · exact keysNodup_addCandidate _ _ _ hn

lemma keysNodup_candidatesMap (data : List Row) (cs : CheckedState) (us : List Str) :
    ((candidatesMap data cs us).map Prod.fst).Nodup := by
  unfold candidatesMap
  exact keysNodup_candidatesFold cs us _ [] (by simp)

lemma mem_accumulatedUnions (data : List Row) (cs : CheckedState) (us : List Str)
    (X u : Str) :
    u ∈ accumulatedUnions data cs us X ↔
      u ∈ us ∧ ∃ p ∈ data.enum, getCandidateIdentifier p.2 = X ∧ cs p.1 u = true := by
  unfold accumulatedUnions
  rw [List.mem_dedup, List.mem_filter, List.any_eq_true]
  constructor
  · rintro ⟨h1, p, hp, h2⟩
    rw [Bool.and_eq_true, decide_eq_true_eq] at h2
    exact ⟨h1, p, hp, h2.1, h2.2⟩
  · rintro ⟨h1, p, hp, h2, h3⟩
    refine ⟨h1, p, hp, ?_⟩
    rw [Bool.and_eq_true, decide_eq_true_eq]
    exact ⟨h2, h3⟩

/-- C1: Duplicate grouping is symmetric: for every rows, union-list and
selection-state input, if an identity X appears in the result list for
union U with V among its otherUnions, then X also appears in the result
list for union V with U among its otherUnions. -/
theorem C1_duplicate_grouping_symmetric (data : List Row) (cs : CheckedState)
    (allUnions : List Str) (U V X : Str) (l : List (Str × (List Str × Row)))
    (e : Str × (List Str × Row))
    (hl : objGet (duplicatedCandidatesByUnion data cs allUnions) U = some l)
    (he : e ∈ l) (hX : e.1 = X) (hV : V ∈ e.2.1) :
    ∃ l2 e2, objGet (duplicatedCandidatesByUnion data cs allUnions) V = some l2 ∧
      e2 ∈ l2 ∧ e2.1 = X ∧ U ∈ e2.2.1 := by
  unfold duplicatedCandidatesByUnion at hl ⊢
  rw [objGet_groupFold] at hl
  split_ifs at hl with hc
  · obtain rfl : groupForUnion (actualDuplicates data cs allUnions) U = l := by
      injection hl
    obtain ⟨d, hd, hUd, rfl⟩ := (mem_groupForUnion _ _ _).mp he
    have hVmem : V ∈ d.2.1 ∧ V ≠ U := by
      have := List.mem_filter.mp hV
      exact ⟨this.1, by simpa using this.2⟩
    obtain ⟨c, hcm, hlen, rfl⟩ := (mem_actualDuplicates _ _ _ _).mp hd
    have hVc : V ∈ c.2.1 := (mem_sortByB _ _ _).mp hVmem.1
    have hinv := cmInv_candidatesMap data cs allUnions c hcm
    have hVall : V ∈ allUnions := hinv.2.1 V hVc
    set d := (getCandidateIdentifier c.2.2, (sortByB strLeB c.2.1, c.2.2)) with hdd
    have he2 : (d.1, (d.2.1.filter (fun x => decide (x ≠ V)), d.2.2))
        ∈ groupForUnion (actualDuplicates data cs allUnions) V := by
      apply (mem_groupForUnion _ _ _).mpr
      refine ⟨d, ?_, ?_, rfl⟩
      · apply (mem_actualDuplicates _ _ _ _).mpr
        exact ⟨c, hcm, hlen, rfl⟩
      · rw [hdd]
        exact (mem_sortByB _ _ _).mpr hVc
    refine ⟨groupForUnion (actualDuplicates data cs allUnions) V,
      (d.1, (d.2.1.filter (fun x => decide (x ≠ V)), d.2.2)), ?_, he2, hX, ?_⟩
    · rw [objGet_groupFold, if_pos ⟨hVall, List.ne_nil_of_mem he2⟩]
    · apply List.mem_filter.mpr
      refine ⟨hUd, ?_⟩
      simp only [decide_eq_true_eq]
      exact fun hUV => hVmem.2 hUV.symm
  · simp [objGet] at hl

lemma candidatesMap_entry_unions (data : List Row) (cs : CheckedState) (us : List Str)
    {X : Str} {sv : List Str × Row}
    (h : objGet (candidatesMap data cs us) X = some sv) (u : Str) :
    u ∈ sv.1 ↔ u ∈ accumulatedUnions data cs us X := by
  rw [mem_accumulatedUnions]
  have hfold := objGet_candidatesFold_mem cs us data.enum [] X u
  unfold candidatesMap at h
  constructor
  · intro hu
    rcases hfold.mp ⟨sv, h, hu⟩ with (⟨sv2, hsv2, _⟩ | hr)
    · exact absurd hsv2 (by simp [objGet])
    · exact hr
  · intro hr
    rcases hfold.mpr (Or.inr hr) with ⟨sv2, hsv2, hu2⟩
    obtain rfl : sv = sv2 := by injection h.symm.trans hsv2
    exact hu2

lemma length_eq_of_mem_iff_nodup {l1 l2 : List Str} (h1 : l1.Nodup) (h2 : l2.Nodup)
    (h : ∀ x, x ∈ l1 ↔ x ∈ l2) : l1.length = l2.length := by
  have hfin : l1.toFinset = l2.toFinset := by
    ext x
    rw [List.mem_toFinset, List.mem_toFinset]
    exact h x
  calc l1.length = l1.toFinset.card := (List.toFinset_card_of_nodup h1).symm
    _ = l2.toFinset.card := by rw [hfin]
    _ = l2.length := List.toFinset_card_of_nodup h2

lemma nodup_accumulatedUnions (data : List Row) (cs : CheckedState) (us : List Str)
    (X : Str) : (accumulatedUnions data cs us X).Nodup := by
  unfold accumulatedUnions
  exact List.nodup_dedup _

/-- C2: The duplicate grouper reports exactly the identities whose
accumulated union-set has cardinality at least two, and a union with no
duplicate identity is omitted from the result mapping (no empty lists). -/
theorem C2_duplicate_grouper_exact (data : List Row) (cs : CheckedState)
    (allUnions : List Str) :
    (∀ U l, objGet (duplicatedCandidatesByUnion data cs allUnions) U = some l → l ≠ []) ∧
    (∀ X, (∃ U l e, objGet (duplicatedCandidatesByUnion data cs allUnions) U = some l ∧
        e ∈ l ∧ e.1 = X)
      ↔ 2 ≤ (accumulatedUnions data cs allUnions X).length) := by
  constructor
  · intro U l hl
    unfold duplicatedCandidatesByUnion at hl
    rw [objGet_groupFold] at hl
    split_ifs at hl with hc
    · obtain rfl : groupForUnion (actualDuplicates data cs allUnions) U = l := by
        injection hl
      exact hc.2
    · exact absurd hl (by simp [objGet])
  · intro X
    constructor
    · rintro ⟨U, l, e, hl, he, hX⟩
      unfold duplicatedCandidatesByUnion at hl
      rw [objGet_groupFold] at hl
      split_ifs at hl with hc
      swap
      · exact absurd hl (by simp [objGet])
      obtain rfl : groupForUnion (actualDuplicates data cs allUnions) U = l := by
        injection hl
      obtain ⟨d, hd, hUd, rfl⟩ := (mem_groupForUnion _ _ _).mp he
      obtain ⟨c, hcm, hlen, rfl⟩ := (mem_actualDuplicates _ _ _ _).mp hd
      have hinv := cmInv_candidatesMap data cs allUnions c hcm
      have hXc : c.1 = X := by
        have hX2 : getCandidateIdentifier c.2.2 = X := hX
        exact hinv.2.2.symm.trans hX2
      have hobj : objGet (candidatesMap data cs allUnions) X = some c.2 := by
        apply objGet_of_mem_nodup (keysNodup_candidatesMap data cs allUnions)
        rw [← hXc]
        exact hcm
      have hiff := candidatesMap_entry_unions data cs allUnions hobj
      have heq := length_eq_of_mem_iff_nodup hinv.1
        (nodup_accumulatedUnions data cs allUnions X) hiff
      omega
    · intro hlen
      obtain ⟨u1, u2, hu1, hu2, hne⟩ :
          ∃ u1 u2, u1 ∈ accumulatedUnions data cs allUnions X ∧
            u2 ∈ accumulatedUnions data cs allUnions X ∧ u1 ≠ u2 := by
        have hnd := nodup_accumulatedUnions data cs allUnions X
        cases haccum : accumulatedUnions data cs allUnions X with
        | nil => rw [haccum] at hlen; simp at hlen
        | cons a t =>
          cases t with
          | nil => rw [haccum] at hlen; simp at hlen
          | cons b t2 =>
            rw [haccum, List.nodup_cons] at hnd
            refine ⟨a, b, ?_, ?_, ?_⟩
            · exact List.mem_cons_self a _
            · exact List.mem_cons_of_mem a (List.mem_cons_self b t2)
            · exact fun hab => hnd.1 (hab ▸ List.mem_cons_self b t2)
      obtain ⟨hu1us, p1, hp1, hid1, hcs1⟩ :=
        (mem_accumulatedUnions data cs allUnions X u1).mp hu1
      have hsome : (objGet (candidatesMap data cs allUnions) X).isSome = true := by
        unfold candidatesMap
        apply (objGet_candidatesFold_some cs allUnions data.enum [] X).mpr
        refine Or.inr ⟨p1, hp1, hid1, ?_⟩
        intro hnil
        have hmm : u1 ∈ checkedUnionsForRow allUnions cs p1.1 :=
          (mem_checkedUnionsForRow _ _ _ _).mpr ⟨hu1us, hcs1⟩
        rw [hnil] at hmm
        exact List.not_mem_nil u1 hmm
      obtain ⟨sv, hsv⟩ := Option.isSome_iff_exists.mp hsome
      have hiff := candidatesMap_entry_unions data cs allUnions hsv
      have hu1S : u1 ∈ sv.1 := (hiff u1).mpr hu1
      have hu2S : u2 ∈ sv.1 := (hiff u2).mpr hu2
      have hlenS : 1 < sv.1.length := by
        cases hS : sv.1 with
        | nil =>
          rw [hS] at hu1S
          exact absurd hu1S (List.not_mem_nil u1)
        | cons a t =>
          cases t with
          | nil =>
            rw [hS] at hu1S hu2S
            have h1 := List.mem_singleton.mp hu1S
            have h2 := List.mem_singleton.mp hu2S
            exact absurd (h1.trans h2.symm) hne
          | cons b t2 =>
            simp only [List.length_cons]
            omega
      have hcmem : (X, sv) ∈ candidatesMap data cs allUnions := objGet_mem hsv
      have hinv := cmInv_candidatesMap data cs allUnions (X, sv) hcmem
      have hident : getCandidateIdentifier sv.2 = X := hinv.2.2
      have hd : (getCandidateIdentifier sv.2, (sortByB strLeB sv.1, sv.2))
          ∈ actualDuplicates data cs allUnions :=
        (mem_actualDuplicates _ _ _ _).mpr ⟨(X, sv), hcmem, hlenS, rfl⟩
      have hU1sorted : u1 ∈ sortByB strLeB sv.1 := (mem_sortByB _ _ _).mpr hu1S
      have he2 : (getCandidateIdentifier sv.2,
            ((sortByB strLeB sv.1).filter (fun x => decide (x ≠ u1)), sv.2))
          ∈ groupForUnion (actualDuplicates data cs allUnions) u1 :=
        (mem_groupForUnion _ _ _).mpr ⟨_, hd, hU1sorted, rfl⟩
      refine ⟨u1, groupForUnion (actualDuplicates data cs allUnions) u1, _, ?_, he2, hident⟩
      unfold duplicatedCandidatesByUnion
      rw [objGet_groupFold, if_pos ⟨hu1us, List.ne_nil_of_mem he2⟩]

instance decEqGroupEntry : DecidableEq (Str × (List Str × Row)) := inferInstance

instance decEqGroupList : DecidableEq (List (Str × (List Str × Row))) :=
  fun a b => List.hasDecEq a b

/-- A concrete dataset: one candidate checked under CCOO and UGT. -/
def exRow : Row := [(("Nombre").data, Val.vStr (("Juan").data)),
  (("Apellidos").data, Val.vStr (("Pérez").data))]

def exData : List Row := [exRow]

def exCS : CheckedState := fun i u =>
  decide (i = 0) && (decide (u = ("CCOO").data) || decide (u = ("UGT").data))

def exUnions : List Str := [("CCOO").data, ("UGT").data, ("SB").data]

theorem C1_duplicate_grouping_symmetric_witness :
    ∃ l2 e2, objGet (duplicatedCandidatesByUnion exData exCS exUnions) (("UGT").data)
        = some l2 ∧
      e2 ∈ l2 ∧ e2.1 = ("Pérez Juan").data ∧ ("CCOO").data ∈ e2.2.1 :=
  C1_duplicate_grouping_symmetric exData exCS exUnions (("CCOO").data) (("UGT").data)
    (("Pérez Juan").data)
    [((("Pérez Juan").data), ([("UGT").data], exRow))]
    ((("Pérez Juan").data), ([("UGT").data], exRow))
    (by decide) (by decide) (by decide) (by decide)

theorem C2_duplicate_grouper_exact_witness :
    2 ≤ (accumulatedUnions exData exCS exUnions (("Pérez Juan").data)).length ∧
    ∃ U l e, objGet (duplicatedCandidatesByUnion exData exCS exUnions) U = some l ∧
      e ∈ l ∧ e.1 = ("Pérez Juan").data :=
  ⟨by decide,
   ((C2_duplicate_grouper_exact exData exCS exUnions).2 (("Pérez Juan").data)).mpr
     (by decide)⟩

lemma isEmpty_false_of_ne_nil {α : Type} {l : List α} (h : l ≠ []) : l.isEmpty = false := by
  cases l with
  | nil => exact absurd rfl h
  | cons a t => rfl

lemma sortByB_ne_nil {α : Type} (le : α → α → Bool) {l : List α} (h : l ≠ []) :
    sortByB le l ≠ [] := by
  cases l with
  | nil => exact absurd rfl h
  | cons a t =>
    intro hs
    have hmem := (mem_sortByB le a (a :: t)).mpr (List.mem_cons_self a t)
    rw [hs] at hmem
    exact List.not_mem_nil a hmem

/-- C3 counterexample: on the row with an apellidos column holding the
empty string and a dni column holding 123, the resolver returns the
empty string, not the first non-empty rule result 123 and not the
unknown-candidate sentinel. -/
theorem C3_identity_resolver_counterexample :
    getCandidateIdentifier
        [(("apellidos").data, Val.vStr []), (("dni").data, Val.vStr (("123").data))] = []
      ∧ ([] : Str) ≠ ("123").data
      ∧ ([] : Str) ≠ ("Candidato Desconocido").data := by
  refine ⟨by decide, by decide, by decide⟩

/-- C3 (amended): the identity resolver is total and applies its rules in
key-presence order: a rule fires as soon as its matching column set is
non-empty, regardless of whether the values are empty -- surname/name
columns first, then broad name-pattern columns, then a dni/nif/id column
(whose null value stringifies as null); the unknown-candidate sentinel
is produced only by the final first-column fallback, when the row is
empty or its first value is null. -/
theorem C3_identity_resolver_amended (row : Row) :
    ((rowKeys row).filter isSurnameKey ≠ [] ∨ (rowKeys row).filter isNameKey ≠ [] →
      getCandidateIdentifier row =
        trimStr (joinSep [' ']
          ((sortByB strLeB ((rowKeys row).filter isSurnameKey)).map
              (fun k => jsValOrEmpty (rowGet row k)) ++
            (sortByB strLeB ((rowKeys row).filter isNameKey)).map
              (fun k => jsValOrEmpty (rowGet row k))))) ∧
    ((rowKeys row).filter isSurnameKey = [] → (rowKeys row).filter isNameKey = [] →
      (rowKeys row).filter isBroadNameKey ≠ [] →
      getCandidateIdentifier row =
        trimStr (joinSep [' ']
          ((sortByB strLeB ((rowKeys row).filter isBroadNameKey)).map
            (fun k => jsValOrEmpty (rowGet row k))))) ∧
    (∀ k, (rowKeys row).filter isSurnameKey = [] → (rowKeys row).filter isNameKey = [] →
      (rowKeys row).filter isBroadNameKey = [] →
      (rowKeys row).find? isDniKey = some k →
      getCandidateIdentifier row = jsValToString ((rowGet row k).getD Val.vNull)) ∧
    ((∀ k ∈ rowKeys row, isSurnameKey k = false ∧ isNameKey k = false ∧
        isBroadNameKey k = false ∧ isDniKey k = false) →
      (row = [] → getCandidateIdentifier row = ("Candidato Desconocido").data) ∧
      (∀ e t, row = e :: t → e.2 = Val.vNull →
        getCandidateIdentifier row = ("Candidato Desconocido").data) ∧
      (∀ e t, row = e :: t → e.2 ≠ Val.vNull →
        getCandidateIdentifier row = jsValToString e.2)) := by
  refine ⟨?_, ?_, ?_, ?_⟩
  · intro h
    have hne : (sortByB strLeB ((rowKeys row).filter isSurnameKey)).map
          (fun k => jsValOrEmpty (rowGet row k)) ++
        (sortByB strLeB ((rowKeys row).filter isNameKey)).map
          (fun k => jsValOrEmpty (rowGet row k)) ≠ [] := by
      intro hc
      rw [List.append_eq_nil] at hc
      rcases h with h1 | h1
      · exact sortByB_ne_nil strLeB h1 (by
          have := hc.1
          rwa [List.map_eq_nil_iff] at this)
      · exact sortByB_ne_nil strLeB h1 (by
          have := hc.2
          rwa [List.map_eq_nil_iff] at this)
    unfold getCandidateIdentifier
    rw [if_pos]
    rw [isEmpty_false_of_ne_nil hne]
    rfl
  · intro hs hn hb
    simp only [getCandidateIdentifier, hs, hn,
      show sortByB strLeB ([] : List Str) = [] from rfl,
      List.map_nil, List.nil_append, List.isEmpty_nil, Bool.not_true]
    rw [if_neg Bool.false_ne_true]
    have hbb := isEmpty_false_of_ne_nil (sortByB_ne_nil strLeB hb)
    rw [hbb, Bool.not_false, if_pos rfl]
  · intro k hs hn hbro hfind
    simp only [getCandidateIdentifier, hs, hn, hbro,
      show sortByB strLeB ([] : List Str) = [] from rfl,
      List.map_nil, List.nil_append, List.isEmpty_nil, Bool.not_true]
    rw [if_neg Bool.false_ne_true, if_neg Bool.false_ne_true, hfind]
  · intro hall
    have hsur : (rowKeys row).filter isSurnameKey = [] := by
      rw [List.filter_eq_nil_iff]
      intro k hk
      rw [(hall k hk).1]
      exact Bool.false_ne_true
    have hnam : (rowKeys row).filter isNameKey = [] := by
      rw [List.filter_eq_nil_iff]
      intro k hk
      rw [(hall k hk).2.1]
      exact Bool.false_ne_true
    have hbro : (rowKeys row).filter isBroadNameKey = [] := by
      rw [List.filter_eq_nil_iff]
      intro k hk
      rw [(hall k hk).2.2.1]
      exact Bool.false_ne_true
    have hdni : (rowKeys row).find? isDniKey = none := by
      rw [List.find?_eq_none]
      intro k hk
      rw [(hall k hk).2.2.2]
      exact Bool.false_ne_true
    refine ⟨?_, ?_, ?_⟩
    · intro hrow
      subst hrow
      decide
    · intro e t hrow hnull
      subst hrow
      have hm : getCandidateIdentifier (e :: t) =
          (match e.2 with
           | Val.vNull => ("Candidato Desconocido").data
           | v => jsValToString v) := by
        simp only [getCandidateIdentifier, hsur, hnam, hbro, hdni]
        rfl
      rw [hm, hnull]
    · intro e t hrow hnn
      subst hrow
      have hm : getCandidateIdentifier (e :: t) =
          (match e.2 with
           | Val.vNull => ("Candidato Desconocido").data
           | v => jsValToString v) := by
        simp only [getCandidateIdentifier, hsur, hnam, hbro, hdni]
        rfl
      rw [hm]
      cases hv : e.2 with
      | vNull => exact absurd hv hnn
      | vStr s => rfl
      | vNum n => rfl
      | vDate d => rfl

theorem C3_identity_resolver_amended_witness :
    ((rowKeys [(("apellidos").data, Val.vStr [])]).filter isSurnameKey ≠ [] ∨
      (rowKeys [(("apellidos").data, Val.vStr [])]).filter isNameKey ≠ []) ∧
    getCandidateIdentifier [(("apellidos").data, Val.vStr [])] =
      trimStr (joinSep [' ']
        ((sortByB strLeB ((rowKeys [(("apellidos").data, Val.vStr [])]).filter isSurnameKey)).map
            (fun k => jsValOrEmpty (rowGet [(("apellidos").data, Val.vStr [])] k)) ++
          (sortByB strLeB ((rowKeys [(("apellidos").data, Val.vStr [])]).filter isNameKey)).map
            (fun k => jsValOrEmpty (rowGet [(("apellidos").data, Val.vStr [])] k)))) ∧
    getCandidateIdentifier [(("candidato").data, Val.vStr [])] =
      trimStr (joinSep [' ']
        ((sortByB strLeB ((rowKeys [(("candidato").data, Val.vStr [])]).filter
            isBroadNameKey)).map
          (fun k => jsValOrEmpty (rowGet [(("candidato").data, Val.vStr [])] k)))) ∧
    getCandidateIdentifier [(("dni").data, Val.vNull)] =
      jsValToString ((rowGet [(("dni").data, Val.vNull)] (("dni").data)).getD Val.vNull) ∧
    getCandidateIdentifier [(("x").data, Val.vNum 5)] = jsValToString (Val.vNum 5) :=
  ⟨Or.inl (by decide),
   (C3_identity_resolver_amended [(("apellidos").data, Val.vStr [])]).1 (Or.inl (by decide)),
   (C3_identity_resolver_amended [(("candidato").data, Val.vStr [])]).2.1
     (by decide) (by decide) (by decide),
   (C3_identity_resolver_amended [(("dni").data, Val.vNull)]).2.2.1 (("dni").data)
     (by decide) (by decide) (by decide) (by decide),
   ((C3_identity_resolver_amended [(("x").data, Val.vNum 5)]).2.2.2 (by decide)).2.2
     (("x").data, Val.vNum 5) [] rfl (by decide)⟩

/- ---------------------------------------------------------------- -/
/- Lemmas about digit strings and the D/M/Y matcher                 -/
/- ---------------------------------------------------------------- -/

lemma digitChar_toNat (r : Nat) (h : r < 10) : (digitChar r).toNat = 48 + r := by
  interval_cases r <;> decide

lemma isDigitCh_digitChar (r : Nat) (h : r < 10) : isDigitCh (digitChar r) = true := by
  interval_cases r <;> decide

lemma natDigitsGo_digits : ∀ fuel n, n ≤ fuel → ∀ c ∈ natDigitsGo fuel n, isDigitCh c = true := by
  intro fuel
  induction fuel with
  | zero =>
    intro n hn c hc
    simp [natDigitsGo] at hc
  | succ f ih =>
    intro n hn c hc
    unfold natDigitsGo at hc
    split_ifs at hc with h0
    · simp at hc
    · rcases List.mem_append.mp hc with h1 | h1
      · exact ih (n / 10) (by omega) c h1
      · rw [List.mem_singleton] at h1
        subst h1
        exact isDigitCh_digitChar _ (Nat.mod_lt n (by norm_num))

lemma parseDigits_append_one (l : Str) (c : Char) :
    parseDigits (l ++ [c]) = 10 * parseDigits l + digitVal c := by
  unfold parseDigits
  rw [List.foldl_append]
  rfl

lemma natDigitsGo_parse : ∀ fuel n, n ≤ fuel → parseDigits (natDigitsGo fuel n) = n := by
  intro fuel
  induction fuel with
  | zero =>
    intro n hn
    obtain rfl : n = 0 := by omega
    rfl
  | succ f ih =>
    intro n hn
    unfold natDigitsGo
    split_ifs with h0
    · subst h0; rfl
    · rw [parseDigits_append_one, ih (n / 10) (by omega)]
      have hdv : digitVal (digitChar (n % 10)) = n % 10 := by
        unfold digitVal
        rw [digitChar_toNat (n % 10) (Nat.mod_lt n (by norm_num))]
        omega
      rw [hdv]
      omega

lemma natDigitsGo_length : ∀ fuel n, n ≤ fuel → ∀ k,
    ((natDigitsGo fuel n).length ≤ k ↔ n < 10 ^ k) := by
  intro fuel
  induction fuel with
  | zero =>
    intro n hn k
    obtain rfl : n = 0 := by omega
    simp only [natDigitsGo, List.length_nil]
    exact iff_of_true (Nat.zero_le k) (Nat.pos_pow_of_pos k (by norm_num))
  | succ f ih =>
    intro n hn k
    unfold natDigitsGo
    split_ifs with h0
    · subst h0
      simp only [List.length_nil]
      exact iff_of_true (Nat.zero_le k) (Nat.pos_pow_of_pos k (by norm_num))
    · rw [List.length_append, List.length_singleton]
      cases k with
      | zero =>
        refine iff_of_false (by omega) (by omega)
      | succ j =>
        have hiter := ih (n / 10) (by omega) j
        rw [pow_succ]
        constructor
        · intro hk
          have : (natDigitsGo f (n / 10)).length ≤ j := by omega
          have := hiter.mp this
          omega
        · intro hk
          have : n / 10 < 10 ^ j := by omega
          have := hiter.mpr this
          omega

lemma natDigits_digits (n : Nat) : ∀ c ∈ natDigits n, isDigitCh c = true := by
  unfold natDigits
  split_ifs with h0
  · intro c hc
    rw [List.mem_singleton] at hc
    subst hc
    decide
  · exact natDigitsGo_digits n n (le_refl n)

lemma parseDigits_natDigits (n : Nat) : parseDigits (natDigits n) = n := by
  unfold natDigits
  split_ifs with h0
  · subst h0; rfl
  · exact natDigitsGo_parse n n (le_refl n)

lemma natDigits_length_le (n k : Nat) (hn : 1 ≤ n) :
    ((natDigits n).length ≤ k ↔ n < 10 ^ k) := by
  unfold natDigits
  rw [if_neg (by omega)]
  exact natDigitsGo_length n n (le_refl n) k

lemma natDigits_length_pos (n : Nat) : 1 ≤ (natDigits n).length := by
  by_cases h0 : n = 0
  · subst h0; decide
  · have := (natDigits_length_le n 0 (by omega))
    simp only [pow_zero] at this
    omega

lemma intStr_nonneg (y : Int) (h : 0 ≤ y) : intStr y = natDigits y.toNat := by
  unfold intStr
  rw [if_neg (by omega)]

lemma pad2_digits (d : Nat) : ∀ c ∈ pad2 d, isDigitCh c = true := by
  unfold pad2
  split_ifs with h
  · intro c hc
    rcases List.mem_cons.mp hc with rfl | hc2
    · decide
    · exact natDigits_digits d c hc2
  · exact natDigits_digits d

lemma pad2_length (d : Nat) (h : d ≤ 99) : (pad2 d).length = 2 := by
  unfold pad2
  split_ifs with h10
  · rw [List.length_cons]
    by_cases h0 : d = 0
    · subst h0; decide
    · have h1 := (natDigits_length_le d 1 (by omega)).mpr (by omega)
      have h2 := natDigits_length_pos d
      omega
  · have h1 := (natDigits_length_le d 2 (by omega)).mpr (by omega)
    have h2 : ¬ ((natDigits d).length ≤ 1) := by
      rw [natDigits_length_le d 1 (by omega)]
      omega
    omega

lemma parseDigits_pad2 (d : Nat) : parseDigits (pad2 d) = d := by
  unfold pad2
  split_ifs with h10
  · have : parseDigits ('0' :: natDigits d) = parseDigits (natDigits d) := rfl
    rw [this, parseDigits_natDigits]
  · exact parseDigits_natDigits d

lemma isSepCh_false_of_digit (c : Char) (h : isDigitCh c = true) : isSepCh c = false := by
  unfold isSepCh
  rw [decide_eq_false_iff_not]
  rintro (rfl | rfl) <;> simp [isDigitCh] at h

lemma splitByP_ne_nil (p : Char → Bool) (s : Str) : splitByP p s ≠ [] := by
  cases s with
  | nil => simp [splitByP]
  | cons c cs =>
    unfold splitByP
    cases h : splitByP p cs with
    | nil => split_ifs <;> simp
    | cons a t => split_ifs <;> simp

lemma splitByP_cons (p : Char → Bool) (c : Char) (s : Str) :
    splitByP p (c :: s) =
      (match splitByP p s with
       | [] => if p c then [[], []] else [[c]]
       | h :: t => if p c then [] :: h :: t else (c :: h) :: t) := rfl

lemma splitByP_cons_sep (p : Char → Bool) (c : Char) (hc : p c = true) (s : Str) :
    splitByP p (c :: s) = [] :: splitByP p s := by
  rw [splitByP_cons]
  cases h : splitByP p s with
  | nil => exact absurd h (splitByP_ne_nil p s)
  | cons a t =>
    simp only
    rw [if_pos hc]

lemma splitByP_cons_nosep (p : Char → Bool) (c : Char) (hc : p c = false) (s : Str) :
    splitByP p (c :: s) =
      ((splitByP p s).headD []).cons c :: (splitByP p s).tail := by
  rw [splitByP_cons]
  cases h : splitByP p s with
  | nil => exact absurd h (splitByP_ne_nil p s)
  | cons a t =>
    simp only
    rw [if_neg (by rw [hc]; exact Bool.false_ne_true)]
    rfl

lemma splitByP_nosep (p : Char → Bool) (a : Str) (ha : ∀ c ∈ a, p c = false) :
    splitByP p a = [a] := by
  induction a with
  | nil => rfl
  | cons x a2 ih =>
    rw [splitByP_cons_nosep p x (ha x (List.mem_cons_self x a2)) a2,
      ih (fun c hc => ha c (List.mem_cons_of_mem x hc))]
    rfl

lemma splitByP_nosep_sep (p : Char → Bool) (a : Str) (ha : ∀ c ∈ a, p c = false)
    (c : Char) (hc : p c = true) (rest : Str) :
    splitByP p (a ++ c :: rest) = a :: splitByP p rest := by
  induction a with
  | nil => exact splitByP_cons_sep p c hc rest
  | cons x a2 ih =>
    rw [List.cons_append,
      splitByP_cons_nosep p x (ha x (List.mem_cons_self x a2)) (a2 ++ c :: rest),
      ih (fun d hd => ha d (List.mem_cons_of_mem x hd))]
    rfl

lemma matchDMY_formatDate (c : CivilDate) (_hd1 : 1 ≤ c.day) (hd2 : c.day ≤ 99)
    (_hm1 : 1 ≤ c.month) (hm2 : c.month ≤ 99) (hy1 : 1000 ≤ c.year) (hy2 : c.year ≤ 9999) :
    matchDMY (formatDate c) = some (c.day, c.month, c.year.toNat) := by
  have hynat1 : 1000 ≤ c.year.toNat := by omega
  have hynat2 : c.year.toNat ≤ 9999 := by omega
  have hys : intStr c.year = natDigits c.year.toNat := intStr_nonneg c.year (by omega)
  have hdd := pad2_digits c.day
  have hmd := pad2_digits c.month
  have hyd := natDigits_digits c.year.toNat
  have hsep : isSepCh '-' = true := by decide
  have hylen4 : (natDigits c.year.toNat).length ≤ 4 :=
    (natDigits_length_le c.year.toNat 4 (by omega)).mpr (by omega)
  have hylen2 : ¬ ((natDigits c.year.toNat).length ≤ 3) := by
    rw [natDigits_length_le c.year.toNat 3 (by omega)]
    omega
  have hsplit : splitByP isSepCh
      (pad2 c.day ++ '-' :: pad2 c.month ++ '-' :: natDigits c.year.toNat)
      = [pad2 c.day, pad2 c.month, natDigits c.year.toNat] := by
    rw [List.append_assoc, List.cons_append]
    rw [splitByP_nosep_sep isSepCh (pad2 c.day)
      (fun ch hch => isSepCh_false_of_digit ch (hdd ch hch)) '-' hsep
      (pad2 c.month ++ '-' :: natDigits c.year.toNat)]
    rw [splitByP_nosep_sep isSepCh (pad2 c.month)
      (fun ch hch => isSepCh_false_of_digit ch (hmd ch hch)) '-' hsep
      (natDigits c.year.toNat)]
    rw [splitByP_nosep isSepCh (natDigits c.year.toNat)
      (fun ch hch => isSepCh_false_of_digit ch (hyd ch hch))]
  unfold formatDate matchDMY
  rw [hys]
  simp only [hsplit]
  rw [if_pos]
  · rw [parseDigits_pad2, parseDigits_pad2, parseDigits_natDigits]
  · refine ⟨?_, ?_, ?_, ?_, ?_, ?_, ?_, ?_, ?_⟩
    · rw [List.all_eq_true]
      exact hdd
    · rw [List.all_eq_true]
      exact hmd
    · rw [List.all_eq_true]
      exact hyd
    · rw [pad2_length c.day hd2]; omega
    · rw [pad2_length c.day hd2]
    · rw [pad2_length c.month hm2]; omega
    · rw [pad2_length c.month hm2]
    · omega
    · exact hylen4

lemma daysFromCivil_day_offset (y : Int) (m d : Nat) (hd : 1 ≤ d) :
    daysFromCivil y m 1 + ((d : Int) - 1) = daysFromCivil y m d := by
  unfold daysFromCivil daysFromCivilEra
  split_ifs with h <;> omega

lemma jsMakeDay_of_valid (y : Int) (m d : Nat) (hm1 : 1 ≤ m) (hm2 : m ≤ 12) (hd : 1 ≤ d) :
    jsMakeDay y ((m : Int) - 1) (d : Int) = daysFromCivil y m d := by
  unfold jsMakeDay
  have h1 : ((m : Int) - 1) / 12 = 0 := by omega
  have h2 : (((m : Int) - 1) % 12).toNat + 1 = m := by omega
  rw [h1, h2, add_zero]
  exact daysFromCivil_day_offset y m d hd

lemma civilFromDays_year_big (z : Int) (hz : 1 ≤ z) : 1000 < (civilFromDays z).year := by
  simp only [civilFromDays, civilOfEraDoe]
  split_ifs <;> omega

lemma daysInMonth_le_31 (y : Int) (m : Nat) : daysInMonth y m ≤ 31 := by
  unfold daysInMonth
  split_ifs <;> omega

/-- C4: a numeric cell strictly exceeding 25569 in a date-indicating
column is decoded as a spreadsheet day-count offset 25569 days from the
Unix epoch and formatted as zero-padded DD-MM-YYYY; the formatted civil
date is exactly the one whose day count from the epoch is n - 25569, and
serial 44927 renders as 01-01-2023. -/
theorem C4_serial_number_dates (gp : Str → Option Int) :
    (∀ n : Int, 25569 < n →
      processCell gp (Val.vNum n)
          = Val.vStr (pad2 (civilFromDays (n - 25569)).day ++ '-' ::
              pad2 (civilFromDays (n - 25569)).month ++ '-' ::
              intStr (civilFromDays (n - 25569)).year) ∧
      daysFromCivil (civilFromDays (n - 25569)).year (civilFromDays (n - 25569)).month
          (civilFromDays (n - 25569)).day = n - 25569 ∧
      1000 < (civilFromDays (n - 25569)).year) ∧
    processDataForDates (fun _ => none) [[(("fecha").data, Val.vNum 44927)]] [("fecha").data]
      = [[(("fecha").data, Val.vStr (("01-01-2023").data))]] := by
  constructor
  · intro n hn
    have hyear := civilFromDays_year_big (n - 25569) (by omega)
    refine ⟨?_, daysFromCivil_civilFromDays (n - 25569), hyear⟩
    simp only [processCell]
    rw [if_pos hn, if_pos hyear]
    rfl
  · decide

theorem C4_serial_number_dates_witness :
    processCell (fun _ => none) (Val.vNum 45000)
        = Val.vStr (pad2 (civilFromDays (45000 - 25569)).day ++ '-' ::
            pad2 (civilFromDays (45000 - 25569)).month ++ '-' ::
            intStr (civilFromDays (45000 - 25569)).year) ∧
      daysFromCivil (civilFromDays (45000 - 25569)).year
          (civilFromDays (45000 - 25569)).month
          (civilFromDays (45000 - 25569)).day = 45000 - 25569 ∧
      1000 < (civilFromDays (45000 - 25569)).year :=
  (C4_serial_number_dates (fun _ => none)).1 45000 (by norm_num)

/-- C5 counterexample: the string 05/06/0500 matches the D/M/Y pattern
(day 5, month 6, four-digit year 500), yet the normalizer leaves it
unchanged because of the year-above-1000 guard, instead of formatting it
as 05-06-500. -/
theorem C5_dmy_string_counterexample :
    matchDMY (("05/06/0500").data) = some (5, 6, 500) ∧
    processCell (fun _ => none) (Val.vStr (("05/06/0500").data))
      = Val.vStr (("05/06/0500").data) ∧
    (("05/06/0500").data : Str) ≠ pad2 5 ++ '-' :: pad2 6 ++ '-' :: intStr 500 := by
  refine ⟨by decide, by decide, by decide⟩

/-- C5 (amended): a string cell matching the D/M/Y pattern, with a
two-digit year expanded to 2000+YY, is parsed as day/month/year and
formatted as zero-padded DD-MM-YYYY provided the components are an
in-range calendar date and the (expanded) year exceeds 1000; 05/06/23
renders as 05-06-2023.  (Years at most 1000 pass through unchanged, and
out-of-range components roll over, see the rollover theorem.) -/
theorem C5_dmy_string_normalization (gp : Str → Option Int) :
    (∀ s d m y, matchDMY s = some (d, m, y) →
      1 ≤ m → m ≤ 12 → 1 ≤ d →
      d ≤ daysInMonth (if y < 100 then (y : Int) + 2000 else (y : Int)) m →
      1000 < (if y < 100 then (y : Int) + 2000 else (y : Int)) →
      processCell gp (Val.vStr s) = Val.vStr
        (pad2 d ++ '-' :: pad2 m ++ '-' ::
          intStr (if y < 100 then (y : Int) + 2000 else (y : Int)))) ∧
    processCell (fun _ => none) (Val.vStr (("05/06/23").data))
      = Val.vStr (("05-06-2023").data) := by
  constructor
  · intro s d m y hmatch hm1 hm12 hd1 hdm hy
    have hval : isValidDate (if y < 100 then (y : Int) + 2000 else (y : Int)) m d :=
      ⟨hm1, hm12, hd1, hdm⟩
    simp only [processCell, hmatch]
    rw [jsMakeDay_of_valid (if y < 100 then (y : Int) + 2000 else (y : Int)) m d hm1 hm12 hd1]
    rw [civilFromDays_daysFromCivil (if y < 100 then (y : Int) + 2000 else (y : Int)) m d hval]
    rw [if_pos hy]
    rfl
  · decide

theorem C5_dmy_string_normalization_witness :
    matchDMY (("07/08/1999").data) = some (7, 8, 1999) ∧
    processCell (fun _ => none) (Val.vStr (("07/08/1999").data)) = Val.vStr
      (pad2 7 ++ '-' :: pad2 8 ++ '-' ::
        intStr (if 1999 < 100 then ((1999 : Nat) : Int) + 2000 else ((1999 : Nat) : Int))) :=
  ⟨by decide,
   (C5_dmy_string_normalization (fun _ => none)).1 (("07/08/1999").data) 7 8 1999
     (by decide) (by decide) (by decide) (by decide) (by decide) (by decide)⟩

/-- C9: date normalization is idempotent on its own output: a formatted
DD-MM-YYYY string (a valid calendar date with a four-digit year above
1000, exactly what the normalizer produces) normalizes to itself. -/
theorem C9_normalization_idempotent (gp : Str → Option Int) (y : Int) (m d : Nat)
    (hval : isValidDate y m d) (hy1 : 1000 < y) (hy2 : y ≤ 9999) :
    processCell gp (Val.vStr (formatDate ⟨y, m, d⟩)) = Val.vStr (formatDate ⟨y, m, d⟩) := by
  obtain ⟨hm1, hm12, hd1, hdm⟩ := hval
  have hd31 : d ≤ 31 := le_trans hdm (daysInMonth_le_31 y m)
  have hmatch := matchDMY_formatDate ⟨y, m, d⟩ hd1 (show d ≤ 99 by omega) hm1
    (show m ≤ 99 by omega) (show (1000 : Int) ≤ y by omega) hy2
  simp only [processCell, hmatch]
  have hy100 : ¬ (y.toNat < 100) := by omega
  rw [if_neg hy100]
  have hcast : ((y.toNat : Int)) = y := by omega
  rw [hcast]
  rw [jsMakeDay_of_valid y m d hm1 hm12 hd1]
  rw [civilFromDays_daysFromCivil y m d ⟨hm1, hm12, hd1, hdm⟩]
  rw [if_pos hy1]

theorem C9_normalization_idempotent_witness :
    isValidDate 2023 6 5 ∧
    processCell (fun _ => none) (Val.vStr (formatDate ⟨2023, 6, 5⟩))
      = Val.vStr (formatDate ⟨2023, 6, 5⟩) :=
  ⟨by decide,
   C9_normalization_idempotent (fun _ => none) 2023 6 5 (by decide) (by decide) (by decide)⟩

/-- C10 counterexample: the string 5/0/1001 matches the D/M/Y pattern
with a year above 1000 after expansion, and its out-of-range month 0
rolls back to December 1000; because the constructed year is then not
above 1000, the value passes through unchanged instead of being
reformatted as the rolled-over date 05-12-1000. -/
theorem C10_rollover_counterexample :
    matchDMY (("5/0/1001").data) = some (5, 0, 1001) ∧
    civilFromDays (jsMakeDay 1001 (-1) 5) = ⟨1000, 12, 5⟩ ∧
    processCell (fun _ => none) (Val.vStr (("5/0/1001").data))
      = Val.vStr (("5/0/1001").data) ∧
    (("5/0/1001").data : Str) ≠ ("05-12-1000").data := by
  refine ⟨by decide, by decide, by decide, by decide⟩

/-- C10 (amended): for a matching string cell, out-of-range day or month
components roll over into adjacent months and years: the value is
reformatted from the constructed (rolled-over) calendar date, whose day
count equals the JS MakeDay result, provided that constructed date's
year exceeds 1000; when the rolled-over date lands in year 1000 or
earlier the value passes through unchanged.  31/02/2023 renders as
03-03-2023. -/
theorem C10_out_of_range_rollover (gp : Str → Option Int) :
    (∀ s d m y, matchDMY s = some (d, m, y) →
      (1000 < (civilFromDays (jsMakeDay
            (if y < 100 then (y : Int) + 2000 else (y : Int)) ((m : Int) - 1) (d : Int))).year →
        processCell gp (Val.vStr s) = Val.vStr (formatDate (civilFromDays (jsMakeDay
          (if y < 100 then (y : Int) + 2000 else (y : Int)) ((m : Int) - 1) (d : Int)))) ∧
        daysFromCivil
            (civilFromDays (jsMakeDay
              (if y < 100 then (y : Int) + 2000 else (y : Int)) ((m : Int) - 1) (d : Int))).year
            (civilFromDays (jsMakeDay
              (if y < 100 then (y : Int) + 2000 else (y : Int)) ((m : Int) - 1) (d : Int))).month
            (civilFromDays (jsMakeDay
              (if y < 100 then (y : Int) + 2000 else (y : Int)) ((m : Int) - 1) (d : Int))).day
          = jsMakeDay (if y < 100 then (y : Int) + 2000 else (y : Int)) ((m : Int) - 1) (d : Int)) ∧
      ((civilFromDays (jsMakeDay
            (if y < 100 then (y : Int) + 2000 else (y : Int)) ((m : Int) - 1) (d : Int))).year ≤ 1000 →
        processCell gp (Val.vStr s) = Val.vStr s)) ∧
    processCell (fun _ => none) (Val.vStr (("31/02/2023").data))
      = Val.vStr (("03-03-2023").data) := by
  constructor
  · intro s d m y hmatch
    constructor
    · intro hyear
      simp only [processCell, hmatch]
      rw [if_pos hyear]
      exact ⟨rfl, daysFromCivil_civilFromDays _⟩
    · intro hyear
      simp only [processCell, hmatch]
      rw [if_neg (by omega)]
  · decide

theorem C10_out_of_range_rollover_witness :
    matchDMY (("31/02/2023").data) = some (31, 2, 2023) ∧
    processCell (fun _ => none) (Val.vStr (("31/02/2023").data))
      = Val.vStr (formatDate (civilFromDays (jsMakeDay
          (if (2023 : Nat) < 100 then ((2023 : Nat) : Int) + 2000 else ((2023 : Nat) : Int))
          (((2 : Nat) : Int) - 1) ((31 : Nat) : Int)))) :=
  ⟨by decide,
   (((C10_out_of_range_rollover (fun _ => none)).1 (("31/02/2023").data) 31 2 2023
     (by decide)).1 (by decide)).1⟩

/-- C8: parseFile rejects with a descriptive error for every extension
outside csv/json/xlsx/xls and for JSON whose root is not an array
(never a normal result there), while a source parsing to zero rows -- an
empty JSON array, an empty first Excel sheet, or a CSV whose rows are
all filtered out as empty -- resolves to empty headers and rows as a
valid non-error result. -/
theorem C8_parse_file_errors_and_empty (gp : Str → Option Int) :
    (∀ f : FileInput,
      extOf f.name ≠ ("csv").data → extOf f.name ≠ ("json").data →
      extOf f.name ≠ ("xlsx").data → extOf f.name ≠ ("xls").data →
      parseFile gp f
        = Except.error (("Tipo de archivo no soportado: .").data ++ extOf f.name)) ∧
    (∀ f : FileInput, extOf f.name = ("json").data →
      f.jsonParse = some JsonRoot.nonArray →
      parseFile gp f
        = Except.error (("El archivo JSON debe contener un array de objetos.").data)) ∧
    (∀ f : FileInput, extOf f.name = ("json").data →
      f.jsonParse = some (JsonRoot.arr []) →
      parseFile gp f = Except.ok ([], [])) ∧
    (∀ f : FileInput, (extOf f.name = ("xlsx").data ∨ extOf f.name = ("xls").data) →
      f.sheets.head? = some [] →
      parseFile gp f = Except.ok ([], [])) ∧
    (∀ f : FileInput, extOf f.name = ("csv").data → f.csvErrors = [] →
      f.csvRows.filter (fun r =>
        !(r.all (fun e => decide (e.2 = Val.vNull) || decide (e.2 = Val.vStr [])))) = [] →
      parseFile gp f = Except.ok ([], [])) := by
  refine ⟨?_, ?_, ?_, ?_, ?_⟩
  · intro f h1 h2 h3 h4
    simp only [parseFile]
    rw [if_neg h1, if_neg h2, if_neg (by simp [h3, h4])]
  · intro f hj hp
    simp only [parseFile]
    rw [if_neg (by rw [hj]; decide), if_pos hj, hp]
  · intro f hj hp
    simp only [parseFile]
    rw [if_neg (by rw [hj]; decide), if_pos hj, hp]
    rfl
  · intro f hx hs
    obtain ⟨t, ht⟩ : ∃ t, f.sheets = [] :: t := by
      cases hfs : f.sheets with
      | nil => rw [hfs] at hs; cases hs
      | cons a t =>
        rw [hfs] at hs
        simp only [List.head?, Option.some.injEq] at hs
        exact ⟨t, by rw [hs]⟩
    have hnc : extOf f.name ≠ ("csv").data := by
      rcases hx with h | h <;> rw [h] <;> decide
    have hnj : extOf f.name ≠ ("json").data := by
      rcases hx with h | h <;> rw [h] <;> decide
    simp only [parseFile]
    rw [if_neg hnc, if_neg hnj, if_pos hx, ht]
    rfl
  · intro f hc herr hfil
    simp only [parseFile]
    rw [if_pos hc, herr, hfil]
    rfl

theorem C8_parse_file_errors_and_empty_witness :
    parseFile (fun _ => none) ⟨("Datos.TXT").data, [], [], none, []⟩
      = Except.error (("Tipo de archivo no soportado: .").data
          ++ extOf (("Datos.TXT").data)) ∧
    parseFile (fun _ => none) ⟨("d.json").data, [], [], some JsonRoot.nonArray, []⟩
      = Except.error (("El archivo JSON debe contener un array de objetos.").data) ∧
    parseFile (fun _ => none) ⟨("d.json").data, [], [], some (JsonRoot.arr []), []⟩
      = Except.ok ([], []) ∧
    parseFile (fun _ => none) ⟨("d.xlsx").data, [], [], none, [[]]⟩
      = Except.ok ([], []) ∧
    parseFile (fun _ => none)
        ⟨("d.csv").data, [[(("a").data, Val.vNull)]], [], none, []⟩
      = Except.ok ([], []) :=
  ⟨(C8_parse_file_errors_and_empty (fun _ => none)).1 _
      (by decide) (by decide) (by decide) (by decide),
   (C8_parse_file_errors_and_empty (fun _ => none)).2.1 _ (by decide) rfl,
   (C8_parse_file_errors_and_empty (fun _ => none)).2.2.1 _ (by decide) rfl,
   (C8_parse_file_errors_and_empty (fun _ => none)).2.2.2.1 _ (Or.inl (by decide)) rfl,
   (C8_parse_file_errors_and_empty (fun _ => none)).2.2.2.2 _ (by decide) rfl (by decide)⟩

lemma firstSeen_nil : firstSeen [] = [] := by
  rw [firstSeen]

lemma firstSeen_cons (a : Str) (t : List Str) :
    firstSeen (a :: t) = a :: firstSeen (t.filter (fun b => decide (b ≠ a))) := by
  rw [firstSeen]

lemma mem_firstSeen (x : Str) (l : List Str) : x ∈ firstSeen l ↔ x ∈ l := by
  induction l using firstSeen.induct with
  | case1 => rw [firstSeen_nil]
  | case2 a t ih =>
    rw [firstSeen_cons]
    constructor
    · intro hx
      rcases List.mem_cons.mp hx with h | h
      · subst h; exact List.mem_cons_self _ _
      · exact List.mem_cons_of_mem a (List.mem_filter.mp (ih.mp h)).1
    · intro hx
      rcases List.mem_cons.mp hx with h | h
      · subst h; exact List.mem_cons_self _ _
      · by_cases hxa : x = a
        · subst hxa; exact List.mem_cons_self _ _
        · exact List.mem_cons_of_mem a
            (ih.mpr (List.mem_filter.mpr ⟨h, by simp [hxa]⟩))

lemma nodup_firstSeen (l : List Str) : (firstSeen l).Nodup := by
  induction l using firstSeen.induct with
  | case1 => rw [firstSeen_nil]; exact List.nodup_nil
  | case2 a t ih =>
    rw [firstSeen_cons]
    refine List.nodup_cons.mpr ⟨?_, ih⟩
    intro hmem
    have hneq : a ≠ a :=
      of_decide_eq_true (List.mem_filter.mp ((mem_firstSeen _ _).mp hmem)).2
    exact hneq rfl

lemma idxIn_lt_of_filter (p : Str → Bool) :
    ∀ (t : List Str) (u v : Str), u ∈ t.filter p → v ∈ t.filter p →
      idxIn u (t.filter p) < idxIn v (t.filter p) → idxIn u t < idxIn v t := by
  intro t
  induction t with
  | nil => intro u v hu _ _; cases hu
  | cons c t ih =>
    intro u v hu hv hlt
    have hpu : p u = true := (List.mem_filter.mp hu).2
    have hpv : p v = true := (List.mem_filter.mp hv).2
    cases hp : p c with
    | true =>
      rw [List.filter_cons_of_pos hp] at hu hv hlt
      by_cases huc : c = u
      · by_cases hvc : c = v
        · rw [huc] at hvc
          simp [idxIn, huc, hvc] at hlt
        · simp only [idxIn, if_pos huc, if_neg hvc] at hlt ⊢
          omega
      · by_cases hvc : c = v
        · simp only [idxIn, if_neg huc, if_pos hvc] at hlt
          omega
        · simp only [idxIn, if_neg huc, if_neg hvc] at hlt ⊢
          have hu2 : u ∈ t.filter p := (List.mem_cons.mp hu).resolve_left
            (fun h => huc h.symm)
          have hv2 : v ∈ t.filter p := (List.mem_cons.mp hv).resolve_left
            (fun h => hvc h.symm)
          have := ih u v hu2 hv2 (by omega)
          omega
    | false =>
      rw [List.filter_cons_of_neg (by simp [hp])] at hu hv hlt
      have huc : ¬ (c = u) := fun h => by rw [h] at hp; rw [hpu] at hp; cases hp
      have hvc : ¬ (c = v) := fun h => by rw [h] at hp; rw [hpv] at hp; cases hp
      simp only [idxIn, if_neg huc, if_neg hvc]
      have := ih u v hu hv hlt
      omega

lemma firstSeen_pairwise (l : List Str) :
    (firstSeen l).Pairwise (fun a b => idxIn a l < idxIn b l) := by
  induction l using firstSeen.induct with
  | case1 => rw [firstSeen_nil]; exact List.Pairwise.nil
  | case2 a t ih =>
    rw [firstSeen_cons]
    refine List.pairwise_cons.mpr ⟨?_, ?_⟩
    · intro b hb
      have hbf := (mem_firstSeen _ _).mp hb
      have hbne : b ≠ a := of_decide_eq_true (List.mem_filter.mp hbf).2
      have e1 : idxIn a (a :: t) = 0 := by simp [idxIn]
      have e2 : idxIn b (a :: t) = idxIn b t + 1 := by
        simp only [idxIn]; rw [if_neg (fun h => hbne h.symm)]
      rw [e1, e2]; omega
    · refine List.Pairwise.imp_of_mem ?_ ih
      intro x y hx hy hlt
      have hxf := (mem_firstSeen _ _).mp hx
      have hyf := (mem_firstSeen _ _).mp hy
      have hxne : x ≠ a := of_decide_eq_true (List.mem_filter.mp hxf).2
      have hyne : y ≠ a := of_decide_eq_true (List.mem_filter.mp hyf).2
      have ht := idxIn_lt_of_filter _ t x y hxf hyf hlt
      have ex : idxIn x (a :: t) = idxIn x t + 1 := by
        simp only [idxIn]; rw [if_neg (fun h => hxne h.symm)]
      have ey : idxIn y (a :: t) = idxIn y t + 1 := by
        simp only [idxIn]; rw [if_neg (fun h => hyne h.symm)]
      rw [ex, ey]; omega

/-- C7: for every non-empty parsed row list the returned header list
contains a key iff some row has it (union of keys over all rows), each
header appears exactly once (Nodup), headers are ordered by the position
of their first occurrence in the row scan, and for rows a:1 / b:2 the
headers are a, b. -/
theorem C7_header_union_first_seen (gp : Str → Option Int) :
    (∀ data : List Row, data ≠ [] →
      (∀ k, k ∈ (processAndResolve gp data).1 ↔ ∃ r, r ∈ data ∧ k ∈ rowKeys r) ∧
      (processAndResolve gp data).1.Nodup ∧
      (processAndResolve gp data).1.Pairwise (fun a b =>
        idxIn a ((data.map rowKeys).flatten) < idxIn b ((data.map rowKeys).flatten))) ∧
    (processAndResolve gp [[(("a").data, Val.vNum 1)], [(("b").data, Val.vNum 2)]]).1
      = [("a").data, ("b").data] := by
  constructor
  · intro data hne
    have hbe : data.isEmpty = false := by
      cases data with
      | nil => exact absurd rfl hne
      | cons r t => rfl
    have hP : processAndResolve gp data
        = (firstSeen ((data.map rowKeys).flatten),
           processDataForDates gp data (firstSeen ((data.map rowKeys).flatten))) := by
      simp only [processAndResolve]
      rw [if_neg (by simp [hbe])]
    refine ⟨?_, ?_, ?_⟩
    · intro k
      rw [hP]
      show k ∈ firstSeen ((data.map rowKeys).flatten) ↔ _
      rw [mem_firstSeen]
      constructor
      · intro hk
        obtain ⟨s, hs, hks⟩ := List.mem_flatten.mp hk
        obtain ⟨r, hr, hrs⟩ := List.mem_map.mp hs
        exact ⟨r, hr, hrs ▸ hks⟩
      · rintro ⟨r, hr, hkr⟩
        exact List.mem_flatten.mpr ⟨rowKeys r, List.mem_map.mpr ⟨r, hr, rfl⟩, hkr⟩
    · rw [hP]
      exact nodup_firstSeen _
    · rw [hP]
      exact firstSeen_pairwise _
  · have hf : ([("b").data].filter (fun b => decide (b ≠ ("a").data))) = [("b").data] := by
      decide
    have h1 : firstSeen [("a").data, ("b").data] = [("a").data, ("b").data] := by
      rw [firstSeen_cons, hf, firstSeen_cons]
      rw [show (([] : List Str).filter (fun b => decide (b ≠ ("b").data))) = [] from rfl]
      rw [firstSeen_nil]
    show firstSeen _ = _
    exact h1

theorem C7_header_union_first_seen_witness :
    (processAndResolve (fun _ => none)
        [[(("a").data, Val.vNum 1)], [(("b").data, Val.vNum 2)]]).1.Nodup ∧
    ("b").data ∈ (processAndResolve (fun _ => none)
        [[(("a").data, Val.vNum 1)], [(("b").data, Val.vNum 2)]]).1 :=
  ⟨((C7_header_union_first_seen (fun _ => none)).1 _ (List.cons_ne_nil _ _)).2.1,
   (((C7_header_union_first_seen (fun _ => none)).1 _ (List.cons_ne_nil _ _)).1
     (("b").data)).mpr ⟨_, List.mem_cons_of_mem _ (List.mem_cons_self _ _), by decide⟩⟩

lemma mem_indexData {data : List Row} {r : Row} {i : Nat} :
    (r, i) ∈ indexData data ↔ data[i]? = some r := by
  unfold indexData
  constructor
  · intro h
    obtain ⟨p, hp, hpe⟩ := List.mem_map.mp h
    obtain ⟨j, b⟩ := p
    have hb : b = r := congrArg Prod.fst hpe
    have hj : j = i := congrArg Prod.snd hpe
    subst hb; subst hj
    exact List.mk_mem_enum_iff_getElem?.mp hp
  · intro h
    exact List.mem_map.mpr ⟨(i, r), List.mk_mem_enum_iff_getElem?.mpr h, rfl⟩

/-- Two rows of the search example: one containing María García, one
containing María López. -/
def exSearch : List Row :=
  [[(("nombre").data, Val.vStr (("María García").data))],
   [(("nombre").data, Val.vStr (("María López").data))]]

/-- C6: a row is in the search result iff its normalized joined field
values contain every whitespace-separated normalized query term as a
substring (AND semantics; the characterization depends only on which
terms occur, not their order); a query with no terms returns the data
unchanged; and normalization makes matching accent- and
case-insensitive: the accentless query maria garcia keeps exactly the
María García row of the example and drops the María López row, and the
reordered query garcia maria selects the same rows. -/
theorem C6_search_and_semantics :
    (∀ (data : List Row) (q : Str) (r : Row) (i : Nat),
      ((r, i) ∈ appFilter (indexData data) q ↔
        (r, i) ∈ indexData data ∧
          ∀ t ∈ (splitCh ' ' (normalizeText q)).filter (fun t => !(trimStr t).isEmpty),
            strIncludes (searchableOf r) t = true)) ∧
    (∀ (orig : List (Row × Nat)) (q : Str),
      (splitCh ' ' (normalizeText q)).filter (fun t => !(trimStr t).isEmpty) = [] →
      appFilter orig q = orig) ∧
    appFilter (indexData exSearch) (("maria garcia").data)
      = [([(("nombre").data, Val.vStr (("María García").data))], 0)] ∧
    appFilter (indexData exSearch) (("garcia maria").data)
      = appFilter (indexData exSearch) (("maria garcia").data) := by
  refine ⟨?_, ?_, ?_, ?_⟩
  · intro data q r i
    simp only [appFilter]
    by_cases hT : (splitCh ' ' (normalizeText q)).filter (fun t => !(trimStr t).isEmpty) = []
    · rw [hT, if_pos List.isEmpty_nil]
      constructor
      · intro h
        exact ⟨h, fun t ht => absurd ht (List.not_mem_nil t)⟩
      · rintro ⟨h, _⟩
        exact h
    · have hTe : ((splitCh ' ' (normalizeText q)).filter
          (fun t => !(trimStr t).isEmpty)).isEmpty = false := by
        cases h2 : (splitCh ' ' (normalizeText q)).filter (fun t => !(trimStr t).isEmpty) with
        | nil => exact absurd h2 hT
        | cons a t => rfl
      rw [if_neg (by simp [hTe])]
      rw [List.mem_filter]
      constructor
      · rintro ⟨hmem, hidx⟩
        refine ⟨hmem, fun t htT => ?_⟩
        have hi := of_decide_eq_true hidx
        obtain ⟨e, he, hei⟩ := List.mem_map.mp hi
        have he2 := List.mem_filter.mp he
        obtain ⟨p, hp, hpe⟩ := List.mem_map.mp he2.1
        obtain ⟨r2, i2⟩ := p
        rw [← hpe] at hei he2
        have hi2 : i2 = i := hei
        subst hi2
        have hr2 : r2 = r := by
          have h1 := mem_indexData.mp hp
          have h2 := mem_indexData.mp hmem
          exact Option.some.inj (h1.symm.trans h2)
        subst hr2
        exact List.all_eq_true.mp he2.2 t htT
      · rintro ⟨hmem, hall⟩
        refine ⟨hmem, decide_eq_true ?_⟩
        refine List.mem_map.mpr ⟨(searchableOf r, i), List.mem_filter.mpr ⟨?_, ?_⟩, rfl⟩
        · exact List.mem_map.mpr ⟨(r, i), hmem, rfl⟩
        · exact List.all_eq_true.mpr (fun t ht => hall t ht)
  · intro orig q hT
    simp only [appFilter]
    rw [hT]
    rfl
  · decide
  · decide

theorem C6_search_and_semantics_witness :
    appFilter (indexData exSearch) [] = indexData exSearch :=
  C6_search_and_semantics.2.1 (indexData exSearch) [] (by decide)
